import Mathlib

/-!
Verification of the iBeChange recommendation-selection module (cs_module).

This file shallowly embeds the parts of the Python source that the checked
properties are about:

* `cs_module/config.py` — the static configuration constants and feature flags;
* `cs_module/multi_armed_bandit/logistic_laplace_ts.py` and
  `bernoulli_beta_ts.py` — the two bandit policies;
* `cs_module/utils/encoding.py` — the feature pipeline;
* `cs_module/utils/process_binder.py` — the decision binder;
* `cs_module/content_selection/core.py` — the event-ordering logic of
  `ContentSelection.update`;
* `cs_module/content_selection/user.py`, `user_manager.py` — the user state;
* `cs_module/content_selection/engine.py`, `selector.py`,
  `frequency_updaters.py` — the slate-generation loop.

Python floats are modelled as rationals (ℚ); Python dicts as association
lists with Python's insertion-order semantics (`pyGet?` / `pySet`); Python
exceptions as `Option` results (`none` = the call raises).  Randomness
(numpy sampling inside the bandits) is abstracted as an explicit oracle
argument, constrained exactly as the real sampler is (it returns one of the
candidates handed to it, together with an estimated reward).
-/

/-! ## Python dict / list primitives -/

/-- `d[k]`-style lookup in an insertion-ordered dict: the value of the first
entry whose key is `k`. -/
def pyGet? {β : Type} : List (String × β) → String → Option β
  | [], _ => none
  | (k', v) :: d, k => if k' = k then some v else pyGet? d k

/-- `d[k] = v`: replace the value of an existing key in place (keeping its
position), else append a new entry at the end — Python dict assignment. -/
def pySet {β : Type} : List (String × β) → String → β → List (String × β)
  | [], k, v => [(k, v)]
  | (k', v') :: d, k, v => if k' = k then (k', v) :: d else (k', v') :: pySet d k v

/-- The keys of a dict, in insertion order. -/
def pyKeys {β : Type} (d : List (String × β)) : List String := d.map Prod.fst

/-- `list.remove(a)`: drop the first occurrence of `a`; raises `ValueError`
(modelled as `none`) when `a` is absent. -/
def pyRemove : List String → String → Option (List String)
  | [], _ => none
  | x :: xs, a => if x = a then some xs else (pyRemove xs a).map (x :: ·)

/-- Dot product of two equal-length numeric vectors (`x @ y` on numpy arrays). -/
def dotList (x y : List ℚ) : ℚ := (List.zipWith (· * ·) x y).sum

/-! ## Static configuration (`cs_module/config.py`) -/

def MAX_SAME_REC_SENT_PER_MISSION : ℕ := 3
def MAX_NUM_REC_PER_MISSION : ℕ := 10
def MIN_NUM_REC_PER_MISSION : ℕ := 3
def MAX_DISTINCT_REC_PER_MISSION : ℕ := 4

def PILLARS : List String :=
  ["smoking", "alcohol", "nutrition", "physical_activity", "emotional_wellbeing"]

def INTERVENTION_TYPES : List String :=
  ["Education", "Enablement", "Environmental Restructuring", "Incentivisation",
   "Modelling", "Training", "Persuasion", "Restrictions"]

def PERSONAL_DATA_FEATURES : List String :=
  ["gender", "userAge", "education", "recruitmentCenter"]

/-- `PERSONAL_DATA_CATEGORICAL_FEATURES` from `config.py`. -/
def personalDataCategoricalValues : String → Option (List String)
  | "gender" => some ["female", "male", "decline", "other"]
  | "recruitmentCenter" => some ["IEO", "ICO", "UMFCD", "UNIPA"]
  | "education" =>
      some ["no-education", "primary", "secondary", "vocational", "university",
            "postgraduate", "other"]
  | _ => none

def CATEGORICAL_TO_NUMERIC : List String := ["education", "gender"]

/-- `CATEGORICAL_TO_NUMERIC_EXPLICIT["gender"]`. -/
def genderExplicitValue : String → Option ℚ
  | "female" => some 0
  | "decline" => some (1/2)
  | "other" => some (1/2)
  | "male" => some 1
  | _ => none

/-- `LEAVE_OUT_VARS` from `config.py`. -/
def leaveOutVars : String → List String
  | "recruitmentCenter" => ["IEO"]
  | "education" => ["other"]
  | "pillar" => ["smoking"]
  | _ => []

/-- `INTERVENTION_MAB_FEATURES` flag map from `config.py` (`.get(key, False)`
semantics: unknown keys are `false`). -/
def INTERVENTION_MAB_FEATURES : String → Bool
  | "D" => true
  | "H" => true
  | "ND" => true
  | "P" => true
  | "MF" => true
  | "TF" => true
  | "IT" => true
  | "NIT" => true
  | "IF" => true
  | "RF" => true
  | "ER" => false
  | "PR" => true
  | "MS" => false
  | "MF_x_TF_sched" => false
  | "MF_x_RF_sched" => true
  | "MF_x_IF_sched" => true
  | "AGEc_x_RF_sched" => true
  | "AGEc_x_IT" => true
  | "H_c_x_RF_sched" => false
  | "H_c_x_IT" => false
  | "NIT_x_IF_sched" => false
  | _ => false

/-! ## Bandit policy: `LogisticLaplaceTS` (`logistic_laplace_ts.py`)

The posterior state is a mean vector `mu` and a diagonal precision vector
`Pd`; `P0_diag` is the diagonal of the prior precision (all ones at
construction).  `update` is deterministic given the (transcendental) sigmoid,
which is passed in as an explicit function so the development stays
executable; all theorems hold for every sigmoid. -/

structure LogisticLaplaceTS where
  mu : List ℚ
  Pd : List ℚ
  discount : ℚ
  P0_diag : List ℚ
deriving Repr, DecidableEq

/-- `LogisticLaplaceTS.__init__(feature_dim, discount)`. -/
def LogisticLaplaceTS.init (feature_dim : ℕ) (discount : ℚ) : LogisticLaplaceTS :=
  { mu := List.replicate feature_dim 0
    Pd := List.replicate feature_dim 1
    discount := discount
    P0_diag := List.replicate feature_dim 1 }

/-- `LogisticLaplaceTS.update(feature_vector, reward)`, translated line by
line: the optional forgetting step, the sigmoid at the pre-update mean, the
diagonal precision update, then the Newton step on the mean using the
already-updated precision. -/
def LogisticLaplaceTS.update (sigmoid : ℚ → ℚ) (s : LogisticLaplaceTS)
    (x : List ℚ) (reward : ℚ) : LogisticLaplaceTS :=
  -- forgetting step (applied BEFORE the new observation)
  let Pd :=
    if 0 < s.discount ∧ s.discount < 1 then
      List.zipWith max (s.Pd.map (· * s.discount)) s.P0_diag
    else s.Pd
  -- sigma computed from the pre-update mean
  let sg := sigmoid (dotList x s.mu)
  -- Pd += x^2 * sigma * (1 - sigma)
  let Pd := List.zipWith (· + ·) Pd (x.map fun xi => xi ^ 2 * sg * (1 - sg))
  -- grad = (sigma - reward) * x ; mu -= grad / Pd  (with the updated Pd)
  let grad := x.map fun xi => (sg - reward) * xi
  let mu := List.zipWith (· - ·) s.mu (List.zipWith (· / ·) grad Pd)
  { s with mu := mu, Pd := Pd }

/-! Specification-side rendering of the same update, as four separately
named steps, following the spec's words: "decay → sigmoid → precision
update → mean update". -/

/-- Spec step 1: if `0 < discount < 1`, multiply each diagonal precision
entry by `discount` and floor it at the prior precision. -/
def specDecayStep (discount : ℚ) (P0_diag Pd : List ℚ) : List ℚ :=
  if 0 < discount ∧ discount < 1 then
    List.zipWith max (Pd.map (· * discount)) P0_diag
  else Pd

/-- Spec step 2: `σ = sigmoid(x · mu)` from the pre-update mean. -/
def specSigma (sigmoid : ℚ → ℚ) (x mu : List ℚ) : ℚ := sigmoid (dotList x mu)

/-- Spec step 3: `precision += x² · σ · (1 − σ)`. -/
def specPrecisionStep (x : List ℚ) (sg : ℚ) (Pd : List ℚ) : List ℚ :=
  List.zipWith (· + ·) Pd (x.map fun xi => xi ^ 2 * sg * (1 - sg))

/-- Spec step 4: `mu -= (σ − reward) · x / precision`, dividing by the
already-updated precision. -/
def specMeanStep (x : List ℚ) (sg reward : ℚ) (mu Pd : List ℚ) : List ℚ :=
  List.zipWith (· - ·) mu (List.zipWith (· / ·) (x.map fun xi => (sg - reward) * xi) Pd)

/-- The four spec steps, applied in the spec's order. -/
def specLLTSUpdate (sigmoid : ℚ → ℚ) (s : LogisticLaplaceTS)
    (x : List ℚ) (reward : ℚ) : List ℚ × List ℚ :=
  let Pd1 := specDecayStep s.discount s.P0_diag s.Pd
  let sg := specSigma sigmoid x s.mu
  let Pd2 := specPrecisionStep x sg Pd1
  let mu2 := specMeanStep x sg reward s.mu Pd2
  (mu2, Pd2)

/-! ## Bandit policy: `BernoulliBetaTS` (`bernoulli_beta_ts.py`)

Per-action Beta posterior parameters, stored in dicts keyed by action and
registered lazily.  The Beta sampling in `select_action` is abstracted as an
oracle `sample : String → ℚ` giving the sampled theta per action. -/

structure BernoulliBetaTS where
  alpha_0 : ℚ
  beta_0 : ℚ
  alpha : List (String × ℚ)
  beta : List (String × ℚ)
deriving Repr, DecidableEq

/-- `BernoulliBetaTS.__init__(alpha_0, beta_0)`. -/
def BernoulliBetaTS.init (alpha_0 beta_0 : ℚ) : BernoulliBetaTS :=
  { alpha_0 := alpha_0, beta_0 := beta_0, alpha := [], beta := [] }

/-- `_initialize_action`: register an unseen action at the prior. -/
def BernoulliBetaTS.initializeAction (s : BernoulliBetaTS) (action : String) :
    BernoulliBetaTS :=
  if action ∈ pyKeys s.alpha then s
  else { s with alpha := pySet s.alpha action s.alpha_0
                beta := pySet s.beta action s.beta_0 }

/-- `BernoulliBetaTS.update(action, reward)`. -/
def BernoulliBetaTS.update (s : BernoulliBetaTS) (action : String) (reward : ℚ) :
    BernoulliBetaTS :=
  let s := s.initializeAction action
  if reward = 1 then
    { s with alpha := pySet s.alpha action ((pyGet? s.alpha action).getD 0 + 1) }
  else
    { s with beta := pySet s.beta action ((pyGet? s.beta action).getD 0 + 1) }

/-- The argmax step of `select_action`: Python's `max` over the `sampled`
dict returns the first key attaining the maximal sampled theta, in insertion
order (strictly-greater replaces). -/
def pyMaxBySample (sample : String → ℚ) : List String → Option String
  | [] => none
  | a :: rest =>
      match pyMaxBySample sample rest with
      | none => some a
      | some b => if sample b > sample a then some b else some a

/-- `BernoulliBetaTS.select_action(actions)`: register every candidate, then
pick the action with the highest sampled theta.  Returns the chosen action
(`none` on an empty candidate list, where Python's `max` raises) and the
updated policy state. -/
def BernoulliBetaTS.selectAction (s : BernoulliBetaTS) (sample : String → ℚ)
    (actions : List String) : Option String × BernoulliBetaTS :=
  let s := actions.foldl (fun acc a => acc.initializeAction a) s
  (pyMaxBySample sample actions, s)

/-! ## Feature pipeline (`cs_module/utils/encoding.py`)

Floats are rationals; a Python `raise` is `none`.  The heterogeneous
`personal_data` dict is modelled by `PersonalData` with one optional field
per entry of `PERSONAL_DATA_FEATURES` (a missing key and an explicit `None`
behave identically in the source, so one `Option` covers both). -/

/-- `one_hot_encode(value, all_values)`. -/
def one_hot_encode (value : String) (all_values : List String) : List ℚ :=
  all_values.map fun v => if value = v then 1 else 0

/-- `encode_frequency(value, degree, min_val, max_val)`: clip to
`[min_val, max_val]`, then one polynomial feature per degree `1..degree`. -/
def encode_frequency (value : ℚ) (degree : ℕ) (min_val max_val : ℚ) : List ℚ :=
  let v := max min_val (min max_val value)
  (List.range degree).map fun d =>
    (v ^ (d + 1) - min_val ^ (d + 1)) / (max_val ^ (d + 1) - min_val ^ (d + 1))

/-- Modelled from the spec: `cs_module/utils/min_max_norm.py` is imported by
`encoding.py` but absent from the sources.  The spec says numeric attributes
"are min-max normalized against fixed bounds and clipped to [0,1]". -/
def min_max_norm (v a b : ℚ) : ℚ := max 0 (min 1 ((v - a) / (b - a)))

/-- `_center(x)`. -/
def center (x : ℚ) : ℚ := x - 1/2

/-- `_split_pairs(block)` — the source indexes `block[0]`, `block[1]` on
two-element frequency blocks. -/
def splitPair (l : List ℚ) : ℚ × ℚ := (l.getD 0 0, l.getD 1 0)

structure PersonalData where
  gender : Option String
  userAge : Option ℚ
  education : Option String
  recruitmentCenter : Option String
deriving Repr, DecidableEq

/-- The string-valued (categorical) entries of the `personal_data` dict. -/
def personalDataCatValue (pd : PersonalData) : String → Option String
  | "gender" => pd.gender
  | "education" => pd.education
  | "recruitmentCenter" => pd.recruitmentCenter
  | _ => none

/-- The numeric entries of the `personal_data` dict. -/
def personalDataNumValue (pd : PersonalData) : String → Option ℚ
  | "userAge" => pd.userAge
  | _ => none

/-- `CATEGORICAL_TO_NUMERIC_EXPLICIT` (only `gender` has an explicit map). -/
def categoricalToNumericExplicit : String → Option (String → Option ℚ)
  | "gender" => some genderExplicitValue
  | _ => none

/-- `NUMERIC_FEATURES_MIN_MAX` (only `userAge`, bounds `[45, 80]`). -/
def numericFeaturesMinMax : String → Option (ℚ × ℚ)
  | "userAge" => some (45, 80)
  | _ => none

/-- One iteration of the feature loop in `get_personal_data_encoding`,
following the source's branch structure: categorical features either get a
single numeric code (explicit map, else rank scaling, defaulting to 1/2) or
a leave-one-out one-hot (all-zero when absent/unrecognized); numeric
features are min-max normalized, defaulting to 1/2 when absent. -/
def encodePersonalFeature (pd : PersonalData) (feature : String) : List ℚ :=
  match personalDataCategoricalValues feature with
  | some cats =>
      let values := cats.filter fun v => v ∉ leaveOutVars feature
      if feature ∈ CATEGORICAL_TO_NUMERIC then
        match personalDataCatValue pd feature with
        | none => [1/2]
        | some x =>
            match categoricalToNumericExplicit feature with
            | some explicitMap => [(explicitMap x).getD (1/2)]
            | none =>
                if x ∈ values then
                  [(values.indexOf x : ℚ) / ((values.length : ℚ) - 1)]
                else [1/2]
      else
        match personalDataCatValue pd feature with
        | none => List.replicate values.length 0
        | some x =>
            if x ∈ values then one_hot_encode x values
            else List.replicate values.length 0
  | none =>
      match personalDataNumValue pd feature with
      | none => [1/2]
      | some v =>
          match numericFeaturesMinMax feature with
          | some ab => [min_max_norm v ab.1 ab.2]
          | none => [v]

/-- `get_personal_data_encoding(personal_data)`. -/
def get_personal_data_encoding (pd : PersonalData) : List ℚ :=
  (PERSONAL_DATA_FEATURES.map (encodePersonalFeature pd)).flatten

/-- `get_personal_data_labels()`. -/
def get_personal_data_labels : List String :=
  (PERSONAL_DATA_FEATURES.map fun feature =>
    match personalDataCategoricalValues feature with
    | some cats =>
        if feature ∈ CATEGORICAL_TO_NUMERIC then [feature]
        else cats.filter fun v => v ∉ leaveOutVars feature
    | none => [feature]).flatten

/-- `get_hhs_encoding(hhs)`: one score per pillar, default 50, scaled to
`[0,1]`. -/
def get_hhs_encoding (hhs : String → Option ℚ) : List ℚ :=
  PILLARS.map fun p => (hhs p).getD 50 / 100

/-- `get_hhs_current_encoding(hhs, pillar)`. -/
def get_hhs_current_encoding (hhs : String → Option ℚ) (pillar : String) : List ℚ :=
  [(hhs pillar).getD 50 / 100]

/-- `get_num_intervention_days_encoding(days)`. -/
def get_num_intervention_days_encoding : Option ℤ → List ℚ
  | none => [0]
  | some days => [max 0 (min 1 ((days : ℚ) / (12 * 7)))]

/-- `get_pillar_encoding(pillar)`: leave-one-out one-hot; raises on an
invalid pillar. -/
def get_pillar_encoding (pillar : String) : Option (List ℚ) :=
  if pillar ∈ PILLARS then
    some (one_hot_encode pillar (PILLARS.filter fun p => p ∉ leaveOutVars "pillar"))
  else none

/-- `get_mission_frequency_encoding(mf)` (`FREQUENCY_FEATURE_DEGREES["MF"] = 1`). -/
def get_mission_frequency_encoding (mf : ℚ) : List ℚ :=
  encode_frequency mf 1 1 7

/-- `get_total_frequency_encoding(x, scheduled=...)`: cap differs by one
between the scheduled and past variants. -/
def get_total_frequency_encoding (x : ℚ) (scheduled : Bool) : List ℚ :=
  encode_frequency x 1 0
    (if scheduled then (MAX_NUM_REC_PER_MISSION : ℚ) - 1 else (MAX_NUM_REC_PER_MISSION : ℚ))

/-- `get_intervention_encoding(intervention)`: raises (`none`) when any tag
is unrecognized, else the multi-hot vector renormalized to sum 1 (all-zero
for an empty tag list). -/
def get_intervention_encoding (intervention : List String) : Option (List ℚ) :=
  if intervention.all fun i => i ∈ INTERVENTION_TYPES then
    let mh : List ℚ := INTERVENTION_TYPES.map fun i => if i ∈ intervention then 1 else 0
    let s := mh.sum
    some (if s = 0 then List.replicate INTERVENTION_TYPES.length 0 else mh.map (· / s))
  else none

/-- `get_num_int_types_encoding(intervention)`. -/
def get_num_int_types_encoding (intervention : List String) : List ℚ :=
  [(intervention.length : ℚ) / (INTERVENTION_TYPES.length : ℚ)]

/-- `get_intervention_frequency_encoding(x, scheduled=...)`. -/
def get_intervention_frequency_encoding (x : ℚ) (scheduled : Bool) : List ℚ :=
  encode_frequency x 1 0
    (if scheduled then (MAX_NUM_REC_PER_MISSION : ℚ) - 1 else (MAX_NUM_REC_PER_MISSION : ℚ))

/-- `get_recommendation_frequency_encoding(x, scheduled=...)`. -/
def get_recommendation_frequency_encoding (x : ℚ) (scheduled : Bool) : List ℚ :=
  encode_frequency x 1 0
    (if scheduled then (MAX_SAME_REC_SENT_PER_MISSION : ℚ) - 1
     else (MAX_SAME_REC_SENT_PER_MISSION : ℚ))

/-- `get_engagement_rate_encoding(er_value)`. -/
def get_engagement_rate_encoding : Option ℚ → List ℚ
  | none => [1/2]
  | some v => [max 0 (min 1 v)]

/-- `get_prompted_encoding(prompted)`. -/
def get_prompted_encoding (prompted : Bool) : List ℚ :=
  [if prompted then 1 else 0]

/-- `_get_age_centered(D)`: the demographics entry at the static position of
`"userAge"` in the labels, centered.  (The index is in range for every
demographics encoding; `getD` stands in for Python list indexing.) -/
def getAgeCentered (D : List ℚ) : ℚ :=
  center (D.getD (get_personal_data_labels.indexOf "userAge") 0)

/-- `_get_hhs_current_centered(H, pillar)`. -/
def getHHSCurrentCentered (H : List ℚ) (pillar : String) : ℚ :=
  center (H.getD (PILLARS.indexOf pillar) 0)

/-- The ordered keys of `BASE_LABELS` (a Python 3.7+ dict preserves
insertion order). -/
def BASE_KEYS : List String :=
  ["D", "H", "Hc", "ND", "P", "MF", "TF", "IT", "NIT", "IF", "RF", "ER", "PR", "MS"]

/-- `BASE_DIMENSIONS = {k: len(BASE_LABELS[k])}`. -/
def BASE_DIMENSIONS : String → ℕ
  | "D" => get_personal_data_labels.length
  | "H" => PILLARS.length
  | "Hc" => 1
  | "ND" => 1
  | "P" => (PILLARS.filter fun p => p ∉ leaveOutVars "pillar").length
  | "MF" => 1
  | "TF" => 2
  | "IT" => INTERVENTION_TYPES.length
  | "NIT" => 1
  | "IF" => 2
  | "RF" => 2
  | "ER" => 1
  | "PR" => 1
  | "MS" => 1
  | _ => 0

/-- The value tuple returned by `get_encodings`. -/
structure EncodingBlocks where
  D : List ℚ
  H : List ℚ
  Hc : List ℚ
  ND : List ℚ
  P : List ℚ
  MF : List ℚ
  TF : List ℚ
  IT : List ℚ
  NIT : List ℚ
  IF : List ℚ
  RF : List ℚ
  ER : List ℚ
  PR : List ℚ
  MS : List ℚ
deriving Repr, DecidableEq

/-- The argument tuple of `get_intervention_feature_vector`. -/
structure InterventionFVArgs where
  personal_data : PersonalData
  hhs : String → Option ℚ
  num_intervention_days : Option ℤ
  pillar : String
  mission_frequency : ℚ
  total_frequency_past_week : ℚ
  total_frequency_scheduled : ℚ
  intervention : List String
  intervention_frequency_past_week : ℚ
  intervention_frequency_scheduled : ℚ
  recommendation_frequency_past_week : ℚ
  recommendation_frequency_scheduled : ℚ
  er_past_value : Option ℚ
  prompted : Bool
  prev_mission_score : ℚ

/-- `get_encodings(...)`: builds every block; `none` when the pillar or the
intervention-type list is invalid (the two encoders that raise). -/
def get_encodings (a : InterventionFVArgs) : Option EncodingBlocks :=
  match get_pillar_encoding a.pillar, get_intervention_encoding a.intervention with
  | some P, some IT =>
      some { D := get_personal_data_encoding a.personal_data
             H := get_hhs_encoding a.hhs
             Hc := get_hhs_current_encoding a.hhs a.pillar
             ND := get_num_intervention_days_encoding a.num_intervention_days
             P := P
             MF := get_mission_frequency_encoding a.mission_frequency
             TF := get_total_frequency_encoding a.total_frequency_past_week false ++
                   get_total_frequency_encoding a.total_frequency_scheduled true
             IT := IT
             NIT := get_num_int_types_encoding a.intervention
             IF := get_intervention_frequency_encoding a.intervention_frequency_past_week false ++
                   get_intervention_frequency_encoding a.intervention_frequency_scheduled true
             RF := get_recommendation_frequency_encoding a.recommendation_frequency_past_week false ++
                   get_recommendation_frequency_encoding a.recommendation_frequency_scheduled true
             ER := get_engagement_rate_encoding (some (a.er_past_value.getD 0))
             PR := get_prompted_encoding a.prompted
             MS := [max 0 (min 1 a.prev_mission_score)] }
  | _, _ => none

/-- `base_parts[key]` inside `get_intervention_feature_vector`. -/
def basePart (e : EncodingBlocks) : String → List ℚ
  | "D" => e.D
  | "H" => e.H
  | "Hc" => e.Hc
  | "ND" => e.ND
  | "P" => e.P
  | "MF" => e.MF
  | "TF" => e.TF
  | "IT" => e.IT
  | "NIT" => e.NIT
  | "IF" => e.IF
  | "RF" => e.RF
  | "ER" => e.ER
  | "PR" => e.PR
  | "MS" => e.MS
  | _ => []

/-- The optional cartesian interaction families (all disabled in the current
config, but kept behind flags in the source). -/
def INTERACTION_PAIRS : List (String × String × String) :=
  [("D_H", "D", "H"), ("D_P", "D", "P"), ("D_IT", "D", "IT"), ("D_MF", "D", "MF"),
   ("D_TF", "D", "TF"), ("D_IF", "D", "IF"), ("D_RF", "D", "RF"), ("P_IT", "P", "IT"),
   ("P_MF", "P", "MF"), ("P_TF", "P", "TF"), ("P_IF", "P", "IF"), ("I_IF", "IT", "IF"),
   ("I_RF", "IT", "RF")]

/-- `itertools.product(A, B)` followed by elementwise multiplication. -/
def pyProductMul (A B : List ℚ) : List ℚ :=
  (A.map fun x => B.map fun y => x * y).flatten

/-- `get_intervention_feature_vector(...)`: bias, then the enabled base
blocks in `BASE_LABELS` order, then the enabled curated interactions, then
the enabled cartesian families. -/
def get_intervention_feature_vector (a : InterventionFVArgs) : Option (List ℚ) :=
  match get_encodings a with
  | none => none
  | some e =>
      let base := (BASE_KEYS.map fun k =>
        if INTERVENTION_MAB_FEATURES k then basePart e k else []).flatten
      let TFp := splitPair e.TF
      let RFp := splitPair e.RF
      let IFp := splitPair e.IF
      let age_c := getAgeCentered e.D
      let custom :=
        (if INTERVENTION_MAB_FEATURES "MF_x_TF_sched" then [e.MF.getD 0 0 * TFp.2] else []) ++
        (if INTERVENTION_MAB_FEATURES "MF_x_RF_sched" then [e.MF.getD 0 0 * RFp.2] else []) ++
        (if INTERVENTION_MAB_FEATURES "MF_x_IF_sched" then [e.MF.getD 0 0 * IFp.2] else []) ++
        (if INTERVENTION_MAB_FEATURES "NIT_x_IF_sched" then [e.NIT.getD 0 0 * IFp.2] else []) ++
        (if INTERVENTION_MAB_FEATURES "AGEc_x_RF_sched" then [age_c * RFp.2] else []) ++
        (if INTERVENTION_MAB_FEATURES "AGEc_x_IT" then e.IT.map fun w => age_c * w else []) ++
        (if INTERVENTION_MAB_FEATURES "HHS_c_x_RF_sched" then
          [getHHSCurrentCentered e.H a.pillar * RFp.2] else []) ++
        (if INTERVENTION_MAB_FEATURES "HHS_c_x_IT" then
          e.IT.map fun w => getHHSCurrentCentered e.H a.pillar * w else [])
      let cartesian := (INTERACTION_PAIRS.map fun kp =>
        if INTERVENTION_MAB_FEATURES kp.1 then
          pyProductMul (basePart e kp.2.1) (basePart e kp.2.2)
        else []).flatten
      some ([1] ++ base ++ custom ++ cartesian)

/-- `get_dim_intervention_feature_vector(include_bias=True)`: the output
dimensionality computed from the static schema alone. -/
def get_dim_intervention_feature_vector (include_bias : Bool) : ℕ :=
  (if include_bias then 1 else 0) +
  (BASE_KEYS.map fun k => if INTERVENTION_MAB_FEATURES k then BASE_DIMENSIONS k else 0).sum +
  (if INTERVENTION_MAB_FEATURES "MF_x_TF_sched" then 1 else 0) +
  (if INTERVENTION_MAB_FEATURES "MF_x_RF_sched" then 1 else 0) +
  (if INTERVENTION_MAB_FEATURES "MF_x_IF_sched" then 1 else 0) +
  (if INTERVENTION_MAB_FEATURES "NIT_x_IF_sched" then 1 else 0) +
  (if INTERVENTION_MAB_FEATURES "AGEc_x_RF_sched" then 1 else 0) +
  (if INTERVENTION_MAB_FEATURES "AGEc_x_IT" then INTERVENTION_TYPES.length else 0) +
  (if INTERVENTION_MAB_FEATURES "HHS_c_x_RF_sched" then 1 else 0) +
  (if INTERVENTION_MAB_FEATURES "HHS_c_x_IT" then INTERVENTION_TYPES.length else 0) +
  (INTERACTION_PAIRS.map fun kp =>
    if INTERVENTION_MAB_FEATURES kp.1 then
      BASE_DIMENSIONS kp.2.1 * BASE_DIMENSIONS kp.2.2
    else 0).sum

/-! ## Decision binder (`cs_module/utils/process_binder.py`)

`pending[user_id][plan_id]` is a `defaultdict` of FIFO deques, modelled as a
total function into lists (a missing key and an empty deque are
indistinguishable in the source's logic); `proc_map` is an insertion-ordered
dict.  Correlation ids (`process_id`) are strings. -/

structure Snapshot where
  content_count : ℕ
  rec_id : String
  mission_id : String
  feature_vector : Option (List ℚ)
  selection_time : ℤ
deriving Repr, DecidableEq

structure ProcessBinder where
  pending : String → String → List Snapshot
  proc_map : List (String × Snapshot)
  cap : ℕ

/-- `ProcessBinder(proc_cap)` with empty state. -/
def ProcessBinder.initBinder (proc_cap : ℕ) : ProcessBinder :=
  { pending := fun _ _ => [], proc_map := [], cap := proc_cap }

/-- `enqueue_decision(user_id, plan_id, snapshot)`. -/
def ProcessBinder.enqueueDecision (b : ProcessBinder) (user_id plan_id : String)
    (snapshot : Snapshot) : ProcessBinder :=
  { b with pending := fun u p =>
      if u = user_id ∧ p = plan_id then b.pending u p ++ [snapshot] else b.pending u p }

/-- The match condition in `bind_on_sent`:
`snap["rec_id"] == rec_id and (mission_id is None or snap["mission_id"] == mission_id)`. -/
def snapMatches (rec_id : String) (mission_id : Option String) (s : Snapshot) : Bool :=
  decide (s.rec_id = rec_id ∧ (mission_id = none ∨ mission_id = some s.mission_id))

/-- The FIFO scan of `bind_on_sent`: consume the first matching snapshot,
keep everything else in order. -/
def bindScan (rec_id : String) (mission_id : Option String) :
    List Snapshot → Option Snapshot × List Snapshot
  | [] => (none, [])
  | s :: dq =>
      if snapMatches rec_id mission_id s then (some s, dq)
      else
        let r := bindScan rec_id mission_id dq
        (r.1, s :: r.2)

/-- `bind_on_sent(user_id, plan_id, rec_id, mission_id, process_id)`.  Note
that the binding is recorded by plain dict assignment (`proc_map[process_id]
= bound`), not through `_remember`. -/
def ProcessBinder.bindOnSent (b : ProcessBinder) (user_id plan_id rec_id : String)
    (mission_id : Option String) (process_id : String) : Option Snapshot × ProcessBinder :=
  let r := bindScan rec_id mission_id (b.pending user_id plan_id)
  let b' := { b with pending := fun u p =>
      if u = user_id ∧ p = plan_id then r.2 else b.pending u p }
  match r.1 with
  | some snap => (some snap, { b' with proc_map := pySet b'.proc_map process_id snap })
  | none => (none, b')

/-- `dict.pop(k, None)`. -/
def pyPop {β : Type} : List (String × β) → String → List (String × β)
  | [], _ => []
  | (k', v) :: d, k => if k' = k then d else (k', v) :: pyPop d k

/-- `_remember(process_id, snapshot)`: insert, then if over capacity evict
the oldest-inserted key (unless that key is the one just inserted). -/
def ProcessBinder.remember (b : ProcessBinder) (process_id : String)
    (snapshot : Snapshot) : ProcessBinder :=
  let m := pySet b.proc_map process_id snapshot
  if b.cap < m.length then
    match pyKeys m with
    | [] => { b with proc_map := m }
    | oldest :: _ =>
        if oldest ≠ process_id then { b with proc_map := pyPop m oldest }
        else { b with proc_map := m }
  else { b with proc_map := m }

/-- `set_snapshot(process_id, ...)` — the replay path; caches through
`_remember`. -/
def ProcessBinder.setSnapshot (b : ProcessBinder) (process_id : String)
    (snap : Snapshot) : ProcessBinder :=
  b.remember process_id snap

/-- `lookup(process_id)`. -/
def ProcessBinder.lookupProc (b : ProcessBinder) (process_id : String) : Option Snapshot :=
  pyGet? b.proc_map process_id

/-- `release(process_id)`. -/
def ProcessBinder.release (b : ProcessBinder) (process_id : String) : ProcessBinder :=
  { b with proc_map := pyPop b.proc_map process_id }

/-- Repeatedly bind "sent" events for the same (user, plan, rec, mission),
one per correlation id — the scenario in the Binder-FIFO property. -/
def bindSeq (user_id plan_id rec_id : String) (mission_id : Option String) :
    List String → ProcessBinder → List (Option Snapshot) × ProcessBinder
  | [], b => ([], b)
  | pid :: pids, b =>
      let r := b.bindOnSent user_id plan_id rec_id mission_id pid
      let rest := bindSeq user_id plan_id rec_id mission_id pids r.2
      (r.1 :: rest.1, rest.2)

/-! ## Mission-event ordering (`ContentSelection.update`, `core.py` step 3)

`core.py` merges "mission selected" and "mission accomplished" events per
user and sorts them with `items.sort(key=lambda x: (x["ts"], order[x["type"]]))`
where `order = {"select": 0, "accomplish": 1}`; Python's `list.sort` is a
stable sort by that key, and any stable sort by the same key produces the
same list, so insertion sort stands in for it.  Timestamps are modelled as
integers (the code compares parsed datetimes). -/

inductive MissionEventKind
  | select
  | accomplish
deriving Repr, DecidableEq

structure MissionEvent where
  ts : ℤ
  kind : MissionEventKind
  mission_id : String
deriving Repr, DecidableEq

/-- `order = {"select": 0, "accomplish": 1}`. -/
def missionEventOrder : MissionEventKind → ℕ
  | .select => 0
  | .accomplish => 1

/-- Lexicographic comparison on the Python sort key `(ts, order[type])`. -/
def missionEventLE (a b : MissionEvent) : Prop :=
  a.ts < b.ts ∨ (a.ts = b.ts ∧ missionEventOrder a.kind ≤ missionEventOrder b.kind)

instance : DecidableRel missionEventLE := fun a b => by
  unfold missionEventLE; infer_instance

/-- The per-user sort in step 3c of `ContentSelection.update`. -/
def sortMissionEvents (l : List MissionEvent) : List MissionEvent :=
  List.insertionSort missionEventLE l

/-! ## User state and manager (`user.py`, `user_manager.py`), the parts the
mission-lifecycle claims are about. -/

structure MissionRecord where
  mission : String
  recommendations : List String
  resources : List String
  prescribed : Bool
  selection_timestamp : ℤ
  plan_required : Bool
deriving Repr, DecidableEq

structure CSUser where
  user_id : String
  intervention_start_date : Option ℤ
  missions_started : Bool
  new_plan_required : Bool
  selected_missions_and_contents : List MissionRecord
  only_one_rec_already : List String
  active : Bool
deriving Repr, DecidableEq

/-- The body of the `for mission in missions_and_contents["new_missions"]`
loop in `User.update_missions_and_contents`: append the mission with
`plan_required = True`; the first mission ever (per `missions_started`) also
sets `intervention_start_date` from its selection timestamp. -/
def CSUser.applyNewMission (u : CSUser) (m : MissionRecord) : CSUser :=
  let m := { m with plan_required := true }
  let u := { u with selected_missions_and_contents := u.selected_missions_and_contents ++ [m] }
  if u.missions_started then u
  else { u with missions_started := true
                intervention_start_date := some m.selection_timestamp }

/-- `User.update_missions_and_contents`. -/
def CSUser.updateMissionsAndContents (u : CSUser) (new_missions : List MissionRecord) : CSUser :=
  let u := new_missions.foldl CSUser.applyNewMission u
  { u with new_plan_required := true }

structure UserManager where
  users : List (String × CSUser)
  active_user_ids : List String
deriving Repr, DecidableEq

/-- The record handed to `add_users` for one user (its `enrolmentDate` was
normalized by `core.py` and parses to a timestamp). -/
structure NewUserData where
  enrolmentDate : ℤ
deriving Repr, DecidableEq

/-- `UserManager.add_users`: for each record, **create or refresh** the
in-memory user — `self.users[user_id] = User(...)` replaces any existing
entry with a fresh user whose `intervention_start_date` is the enrolment
date and whose other fields are the dataclass defaults. -/
def UserManager.addUsers (mgr : UserManager) (new_users : List (String × NewUserData)) :
    UserManager :=
  new_users.foldl (fun mgr ud =>
    let fresh : CSUser :=
      { user_id := ud.1
        intervention_start_date := some ud.2.enrolmentDate
        missions_started := false
        new_plan_required := false
        selected_missions_and_contents := []
        only_one_rec_already := []
        active := true }
    { mgr with
        users := pySet mgr.users ud.1 fresh
        active_user_ids :=
          if ud.1 ∈ mgr.active_user_ids then mgr.active_user_ids
          else mgr.active_user_ids ++ [ud.1] }) mgr

/-- `UserManager.apply_mission_selected`: apply one "mission selected" event
(no-op with a warning when the user is unknown). -/
def UserManager.applyMissionSelected (mgr : UserManager) (user_id : String)
    (m : MissionRecord) : UserManager :=
  match pyGet? mgr.users user_id with
  | none => mgr
  | some u => { mgr with users := pySet mgr.users user_id (u.updateMissionsAndContents [m]) }

/-! ## Slate generation
(`engine.py get_recommendations_to_send`, `selector.py`, `frequency_updaters.py`)

The feature pipeline's role in the loop is to group each mission's available
recommendation ids by feature vector and hand the groups to the bandit
cascade (`LogisticLaplaceTS` over groups, then `BernoulliBetaTS` within the
chosen group), which returns one of the grouped ids plus an estimated
reward.  The numeric feature values and the sampling are abstracted into an
oracle: at each selection step it designates one index into the mission's
candidate list (any id of any group is reachable this way, and only those)
and the sampled `estimated_reward` used by the acceptance gate.  Everything
the quota claims depend on — availability bookkeeping, the SRc52
mandatory-once rule, the acceptance gate, the frequency-offset caps, the
mutual-exclusivity rule — is translated from the source. -/

structure SlateState where
  avail : List (String × List String)
  selected : List (String × String)
  selCount : List (String × List (String × ℕ))
  totalFreq : ℕ
  intvFreq : List (String × ℚ)
  recFreq : List (String × ℕ)
  onlyOne : List String
deriving Repr, DecidableEq

/-- `update_frequency_offsets(...)` from `frequency_updaters.py`: count the
selection, bump the three offsets, then enforce the same-item and
distinct-item caps on the mission's availability list.  `none` models the
exceptions the source can raise (`get_intervention_encoding`'s `ValueError`,
`KeyError` and `list.remove` misses). -/
def updateFrequencyOffsets (recommendations : String → List String)
    (sel_rec_id mission_id : String) (st : SlateState) : Option SlateState :=
  let cnts0 := (pyGet? st.selCount mission_id).getD []
  let cnts := pySet cnts0 sel_rec_id ((pyGet? cnts0 sel_rec_id).getD 0 + 1)
  let selCount := pySet st.selCount mission_id cnts
  let totalFreq := st.totalFreq + 1
  match get_intervention_encoding (recommendations sel_rec_id) with
  | none => none
  | some mix =>
      let intvFreq := (List.zipWith (fun t w => (t, w)) INTERVENTION_TYPES mix).foldl
        (fun acc tw =>
          if tw.2 ≠ 0 then pySet acc tw.1 ((pyGet? acc tw.1).getD 0 + tw.2) else acc)
        st.intvFreq
      let recFreq := pySet st.recFreq sel_rec_id ((pyGet? st.recFreq sel_rec_id).getD 0 + 1)
      match pyGet? st.avail mission_id with
      | none => none
      | some availM =>
          let step1 : Option (List String) :=
            if MAX_SAME_REC_SENT_PER_MISSION ≤ (pyGet? cnts sel_rec_id).getD 0 then
              pyRemove availM sel_rec_id
            else some availM
          match step1 with
          | none => none
          | some availM1 =>
              -- `list(set(curr) & set(used))`: membership is exactly the
              -- intersection; Python's set iteration order is arbitrary, so
              -- any representative with those members is faithful.
              let availM2 :=
                if MAX_DISTINCT_REC_PER_MISSION ≤ cnts.length then
                  availM1.dedup.filter fun r => r ∈ pyKeys cnts
                else availM1
              some { st with selCount := selCount, totalFreq := totalFreq,
                             intvFreq := intvFreq, recFreq := recFreq,
                             avail := pySet st.avail mission_id availM2 }

/-- First half of the `update_avail_recommendations` loop body: the SRc52
once-per-intervention rule — on SRc52's first selection it is recorded in
`only_one_rec_already` and removed from the list. -/
def sr52Step (sel_rec_id : String) (recs onlyOne : List String) :
    List String × List String :=
  if sel_rec_id = "SRc52" ∧ sel_rec_id ∈ recs ∧ "SRc52" ∉ onlyOne then
    (recs.erase "SRc52", onlyOne ++ ["SRc52"])
  else (recs, onlyOne)

/-- Second half of the loop body: the SRc100/SRc101 mutual exclusion —
selecting one removes the other from the list. -/
def exclusivityStep (sel_rec_id : String) (recs1 : List String) : List String :=
  if (sel_rec_id = "SRc100" ∨ sel_rec_id = "SRc101") ∧ sel_rec_id ∈ recs1 then
    let other := if sel_rec_id = "SRc100" then "SRc101" else "SRc100"
    if other ∈ recs1 then recs1.erase other else recs1
  else recs1

/-- The body of `User.update_avail_recommendations` for one mission entry.
Returns the updated list and `only_one_rec_already`. -/
def updateAvailOneMission (sel_rec_id : String) (recs : List String)
    (onlyOne : List String) : List String × List String :=
  let pr := sr52Step sel_rec_id recs onlyOne
  (exclusivityStep sel_rec_id pr.1, pr.2)

/-- `User.update_avail_recommendations(mission_to_recommendations, sel_rec_id)`:
apply the per-mission body to each dict entry in insertion order, threading
`only_one_rec_already` (the source mutates the lists and the user field in
place while looping over `mission_to_recommendations.items()`). -/
def updateAvailRecommendations :
    List (String × List String) → List String → String →
    List (String × List String) × List String
  | [], onlyOne, _ => ([], onlyOne)
  | e :: es, onlyOne, sel_rec_id =>
      let r := updateAvailOneMission sel_rec_id e.2 onlyOne
      let rest := updateAvailRecommendations es r.2 sel_rec_id
      ((e.1, r.1) :: rest.1, rest.2)

/-- `select_recommendation(...)` from `selector.py`, for the configured
bandits (`LogisticLaplaceTS` + `BernoulliBetaTS`), with the feature-vector
grouping flattened into the mission's candidate list and the sampling
abstracted into `(oracleIdx, oracleER)`:

* empty candidate map → graceful `(None, None)` (`some none`);
* the SRc52 special case: forced alone if never sent, filtered out
  otherwise (an empty result then crashes `np.argmax`, hence `none`);
* the acceptance gate: reject when `estimated_reward <= 0.5` unless
  `select_anyway`.

The outer `Option` is an exception, the inner one the `(None, None)` return. -/
def src52Filter (cands onlyOne : List String) : List String :=
  if "SRc52" ∈ cands then
    if "SRc52" ∉ onlyOne then ["SRc52"]
    else cands.filter fun r => r ≠ "SRc52"
  else cands

def selectRecommendation (oracleIdx : ℕ) (oracleER : ℚ) (cands : List String)
    (onlyOne : List String) (select_anyway : Bool) : Option (Option String) :=
  if cands.isEmpty then some none
  else
    match (src52Filter cands onlyOne).get? oracleIdx with
    | none => none
    | some sel =>
        if ¬ select_anyway ∧ oracleER ≤ 1/2 then some none
        else some (some sel)

/-- The inner slot-filling loop of `get_recommendations_to_send` for one
mission (`for _ in range(num_slots)`).  `count` is the source's 1-based
`count` (incremented on acceptance); `step` numbers the selection attempts
to index the oracle.  The end-of-week feature-vector caching is omitted: it
writes only `user.eow_rec_id_to_fv`, which no claim reads. -/
def fillSlots (recommendations : String → List String) (oracle : ℕ → ℕ × ℚ)
    (mission_id : String) :
    ℕ → ℕ → ℕ → SlateState → Option (ℕ × SlateState)
  | 0, _, step, st => some (step, st)
  | fuel + 1, count, step, st =>
      let availM := (pyGet? st.avail mission_id).getD []
      if availM.isEmpty then some (step, st)
      else
        match selectRecommendation (oracle step).1 (oracle step).2 availM st.onlyOne
            (decide (count ≤ MIN_NUM_REC_PER_MISSION)) with
        | none => none
        | some none => fillSlots recommendations oracle mission_id fuel count (step + 1) st
        | some (some sel) =>
            let st1 := { st with selected := st.selected ++ [(sel, mission_id)] }
            match updateFrequencyOffsets recommendations sel mission_id st1 with
            | none => none
            | some st2 =>
                let r := updateAvailRecommendations st2.avail st2.onlyOne sel
                let st3 := { st2 with avail := r.1, onlyOne := r.2 }
                if ((pyGet? st3.avail mission_id).getD []).isEmpty then some (step + 1, st3)
                else fillSlots recommendations oracle mission_id fuel (count + 1) (step + 1) st3

/-- Python dict-comprehension key order: first occurrence of each key. -/
def firstOccurrences (l : List String) : List String :=
  l.foldl (fun acc x => if x ∈ acc then acc else acc ++ [x]) []

/-- `RecommendationEngine.get_recommendations_to_send(user_id)`:
`user_missions` are the ids of the user's plan-required mission records (in
order, possibly with re-selected duplicates — the slot budget divides by the
raw record count, the dict loop visits each distinct mission once);
`avail0` is `user.get_available_recommendations`; `only_one_rec_already` is
the user's persistent SRc52 flag list.  Returns the final loop state (its
`.selected` field is the returned slate), `none` when the call raises. -/
def getRecommendationsToSend (recommendations : String → List String)
    (oracle : ℕ → ℕ × ℚ) (user_missions : List String)
    (avail0 : String → List String) (only_one_rec_already : List String) :
    Option SlateState :=
  let missions := firstOccurrences user_missions
  let num_slots := MAX_NUM_REC_PER_MISSION / user_missions.length
  let init : SlateState :=
    { avail := missions.map fun m => (m, avail0 m)
      selected := [], selCount := [], totalFreq := 0, intvFreq := [], recFreq := []
      onlyOne := only_one_rec_already }
  (missions.foldl (fun acc m =>
      match acc with
      | none => none
      | some pr => fillSlots recommendations oracle m num_slots 1 pr.1 pr.2)
    (some (0, init))).map Prod.snd

/-- One slate-generation call of a user's history. -/
structure RunInput where
  recommendations : String → List String
  oracle : ℕ → ℕ × ℚ
  user_missions : List String
  avail0 : String → List String

/-- A user's slate-generation history: successive completed calls threading
the persistent `only_one_rec_already` list, collecting each call's slate. -/
def runHistory : List RunInput → List String → Option (List (List (String × String)) × List String)
  | [], onlyOne => some ([], onlyOne)
  | r :: rest, onlyOne =>
      match getRecommendationsToSend r.recommendations r.oracle r.user_missions r.avail0 onlyOne with
      | none => none
      | some st =>
          match runHistory rest st.onlyOne with
          | none => none
          | some pr => some (st.selected :: pr.1, pr.2)

/-! ## Concrete instances used by witnesses and counterexamples -/

/-- A catalog in which every recommendation has the single type Education. -/
def exCatalog : String → List String := fun _ => ["Education"]

/-- An oracle that always picks index 0, reports estimated reward 1 for the
first three selection steps and 3/10 afterwards. -/
def exGateOracle : ℕ → ℕ × ℚ := fun step => (0, if step < 3 then 1 else 3/10)

/-- An oracle that always picks index 0 with estimated reward 1. -/
def exGreedyOracle : ℕ → ℕ × ℚ := fun _ => (0, 1)

/-- Five plain candidate recommendations for one mission. -/
def exAvail : String → List String := fun _ => ["R1", "R2", "R3", "R4", "R5"]

def exSnap1 : Snapshot := ⟨1, "X", "m", none, 0⟩
def exSnap2 : Snapshot := ⟨2, "X", "m", none, 0⟩
def exSnap3 : Snapshot := ⟨3, "X", "m", none, 0⟩

/-- A binder with three pending decisions for item X under (u, p). -/
def exBinder : ProcessBinder :=
  (((ProcessBinder.initBinder 5).enqueueDecision "u" "p" exSnap1).enqueueDecision
      "u" "p" exSnap2).enqueueDecision "u" "p" exSnap3

/-- A binder at its capacity bound (cap 1, one cached entry) with one
matching pending decision. -/
def exFullBinder : ProcessBinder :=
  { pending := fun u p => if u = "u" ∧ p = "p" then [exSnap2] else []
    proc_map := [("p1", exSnap1)]
    cap := 1 }

def exMissionRecord : MissionRecord :=
  { mission := "m1", recommendations := ["R1"], resources := [], prescribed := false
    selection_timestamp := 5, plan_required := false }

/-- A manager holding one user enrolled at time 100. -/
def exManager0 : UserManager :=
  UserManager.addUsers { users := [], active_user_ids := [] } [("u", ⟨100⟩)]

/-- The same manager after user u selects their first mission at time 5. -/
def exManager1 : UserManager :=
  exManager0.applyMissionSelected "u" exMissionRecord

/-- The same manager after user u re-appears in a batch's new-user records. -/
def exManager2 : UserManager :=
  exManager1.addUsers [("u", ⟨100⟩)]

/-- Two same-timestamp events, accomplish listed first. -/
def exEvents : List MissionEvent :=
  [⟨5, .accomplish, "m"⟩, ⟨5, .select, "m"⟩]

/-- A concrete feature-pipeline input. -/
def exFVArgs : InterventionFVArgs :=
  { personal_data := ⟨some "female", some 60, none, some "ICO"⟩
    hhs := fun p => if p = "smoking" then some 70 else none
    num_intervention_days := some 10
    pillar := "smoking"
    mission_frequency := 3
    total_frequency_past_week := 2
    total_frequency_scheduled := 1
    intervention := ["Education", "Training"]
    intervention_frequency_past_week := 1
    intervention_frequency_scheduled := 0
    recommendation_frequency_past_week := 0
    recommendation_frequency_scheduled := 0
    er_past_value := none
    prompted := false
    prev_mission_score := 0 }

/-- Availability for a two-mission plan: two candidates for m1, none for
m2. -/
def exAvailPair : String → List String := fun m => if m = "m1" then ["R1", "R2"] else []

/-- A single available recommendation for mission m1 and none elsewhere. -/
def exAvailOne : String → List String := fun m => if m = "m1" then ["R1"] else []

/-- The final loop state of the concrete two-mission call below: R1 selected
three times for m1 (hitting the same-item cap), nothing for m2. -/
def exC1Final : SlateState :=
  { avail := [("m1", []), ("m2", [])]
    selected := [("R1", "m1"), ("R1", "m1"), ("R1", "m1")]
    selCount := [("m1", [("R1", 3)])]
    totalFreq := 3
    intvFreq := [("Education", 3)]
    recFreq := [("R1", 3)]
    onlyOne := [] }

/-- The same call packaged as a one-element slate-generation history. -/
def exC1Run : RunInput :=
  { recommendations := exCatalog, oracle := exGreedyOracle
    user_missions := ["m1", "m2"], avail0 := exAvailOne }

/-! # Theorems -/

/-! ## Dictionary lemmas -/

theorem pyGet?_pySet_self {β : Type} (d : List (String × β)) (k : String) (v : β) :
    pyGet? (pySet d k v) k = some v := by
  induction d with
  | nil => simp [pySet, pyGet?]
  | cons e d ih =>
      obtain ⟨k', v'⟩ := e
      by_cases h : k' = k <;> simp [pySet, pyGet?, h, ih]

theorem pyGet?_pySet_ne {β : Type} (d : List (String × β)) (k k' : String) (v : β)
    (h : k ≠ k') : pyGet? (pySet d k v) k' = pyGet? d k' := by
  induction d with
  | nil => simp [pySet, pyGet?, h]
  | cons e d ih =>
      obtain ⟨k₀, v₀⟩ := e
      by_cases h₀ : k₀ = k
      · subst h₀; simp [pySet, pyGet?, h]
      · simp [pySet, pyGet?, h₀, ih]

theorem pyKeys_cons {β : Type} (k₀ : String) (v₀ : β) (d : List (String × β)) :
    pyKeys ((k₀, v₀) :: d) = k₀ :: pyKeys d := rfl

theorem pyKeys_pySet_of_mem {β : Type} (d : List (String × β)) (k : String) (v : β)
    (h : k ∈ pyKeys d) : pyKeys (pySet d k v) = pyKeys d := by
  induction d with
  | nil => simp [pyKeys] at h
  | cons e d ih =>
      obtain ⟨k₀, v₀⟩ := e
      by_cases h₀ : k₀ = k
      · simp [pySet, pyKeys, h₀]
      · rw [pyKeys_cons, List.mem_cons] at h
        rcases h with h | h
        · exact absurd h.symm h₀
        · simp only [pySet, if_neg h₀, pyKeys_cons, ih h]

theorem pyKeys_pySet_of_not_mem {β : Type} (d : List (String × β)) (k : String) (v : β)
    (h : k ∉ pyKeys d) : pyKeys (pySet d k v) = pyKeys d ++ [k] := by
  induction d with
  | nil => simp [pySet, pyKeys]
  | cons e d ih =>
      obtain ⟨k₀, v₀⟩ := e
      rw [pyKeys_cons, List.mem_cons] at h
      push_neg at h
      have h₀ : k₀ ≠ k := fun hc => h.1 hc.symm
      simp only [pySet, if_neg h₀, pyKeys_cons, ih h.2, List.cons_append]

theorem pyKeys_pySet_nodup {β : Type} (d : List (String × β)) (k : String) (v : β)
    (h : (pyKeys d).Nodup) : (pyKeys (pySet d k v)).Nodup := by
  by_cases hm : k ∈ pyKeys d
  · rw [pyKeys_pySet_of_mem d k v hm]; exact h
  · rw [pyKeys_pySet_of_not_mem d k v hm]
    simpa [List.nodup_append] using ⟨h, hm⟩

theorem pyGet?_isSome_iff_mem {β : Type} (d : List (String × β)) (k : String) :
    (pyGet? d k).isSome ↔ k ∈ pyKeys d := by
  induction d with
  | nil => simp [pyGet?, pyKeys]
  | cons e d ih =>
      obtain ⟨k₀, v₀⟩ := e
      rw [pyKeys_cons, List.mem_cons]
      by_cases h₀ : k₀ = k
      · subst h₀; simp [pyGet?]
      · have h₀' : ¬ k = k₀ := fun hc => h₀ hc.symm
        simp [pyGet?, h₀, h₀', ih]

theorem pyGet?_eq_none_of_not_mem {β : Type} (d : List (String × β)) (k : String)
    (h : k ∉ pyKeys d) : pyGet? d k = none := by
  cases hg : pyGet? d k with
  | none => rfl
  | some v =>
      exact absurd ((pyGet?_isSome_iff_mem d k).mp (by simp [hg])) h

theorem mem_of_pyGet?_eq_some {β : Type} (d : List (String × β)) (k : String) (v : β)
    (h : pyGet? d k = some v) : (k, v) ∈ d := by
  induction d with
  | nil => simp [pyGet?] at h
  | cons e d ih =>
      obtain ⟨k₀, v₀⟩ := e
      by_cases h₀ : k₀ = k
      · subst h₀; simp [pyGet?] at h; simp [h]
      · simp [pyGet?, h₀] at h
        exact List.mem_cons_of_mem _ (ih h)

theorem pyRemove_spec (l : List String) (a : String) (l' : List String)
    (h : pyRemove l a = some l') :
    l' ⊆ l ∧ (l.Nodup → a ∉ l' ∧ l'.Nodup) := by
  induction l generalizing l' with
  | nil => simp [pyRemove] at h
  | cons x xs ih =>
      by_cases hx : x = a
      · subst hx
        simp [pyRemove] at h
        subst h
        refine ⟨List.subset_cons_self _ _, fun hn => ?_⟩
        simp [List.nodup_cons] at hn
        exact ⟨hn.1, hn.2⟩
      · simp [pyRemove, hx] at h
        obtain ⟨l'', h'', rfl⟩ := h
        obtain ⟨hsub, hnd⟩ := ih l'' h''
        constructor
        · exact List.cons_subset_cons x hsub
        · intro hn
          simp [List.nodup_cons] at hn
          obtain ⟨hx1, hx2⟩ := hn
          obtain ⟨ha, hnd'⟩ := hnd hx2
          refine ⟨?_, ?_⟩
          · simp [ha]
            intro hcontr
            exact hx (hcontr.symm)
          · simp [List.nodup_cons]
            exact ⟨fun hc => hx1 (hsub hc), hnd'⟩

theorem pyPop_pyGet?_self_of_nodup {β : Type} (d : List (String × β)) (k : String)
    (h : (pyKeys d).Nodup) : pyGet? (pyPop d k) k = none := by
  induction d with
  | nil => simp [pyPop, pyGet?]
  | cons e d ih =>
      obtain ⟨k₀, v₀⟩ := e
      simp [pyKeys, List.nodup_cons] at h
      by_cases h₀ : k₀ = k
      · subst h₀
        simp [pyPop]
        exact pyGet?_eq_none_of_not_mem d k₀ (by simpa [pyKeys] using h.1)
      · simp [pyPop, pyGet?, h₀]
        exact ih h.2

/-! ## C5: the LogisticLaplaceTS posterior update -/

/-- C5: `LogisticLaplaceTS.update(x, reward)` computes its new posterior
parameters by exactly the spec's four-step sequence — (1) optional discount
of the diagonal precision floored at the prior, (2) `σ = sigmoid(x · mu)`
from the pre-update mean, (3) `precision += x²·σ·(1−σ)`, (4)
`mu -= (σ − reward)·x / precision` with the already-updated precision — in
this order, for every sigmoid, state, input and reward. -/
theorem C5_llts_update_is_spec_steps (sigmoid : ℚ → ℚ) (s : LogisticLaplaceTS)
    (x : List ℚ) (reward : ℚ) :
    ((s.update sigmoid x reward).mu, (s.update sigmoid x reward).Pd)
      = specLLTSUpdate sigmoid s x reward := rfl

/-! ## C10: BernoulliBetaTS update/select frame effects -/

theorem initializeAction_alpha0 (s : BernoulliBetaTS) (a : String) :
    (s.initializeAction a).alpha_0 = s.alpha_0 ∧
    (s.initializeAction a).beta_0 = s.beta_0 := by
  unfold BernoulliBetaTS.initializeAction
  split <;> simp

theorem initializeAction_get (s : BernoulliBetaTS) (a b : String)
    (hkeys : pyKeys s.alpha = pyKeys s.beta) :
    pyGet? (s.initializeAction a).alpha b
      = (if b ∈ pyKeys s.alpha then pyGet? s.alpha b
         else if b = a then some s.alpha_0 else none) ∧
    pyGet? (s.initializeAction a).beta b
      = (if b ∈ pyKeys s.alpha then pyGet? s.beta b
         else if b = a then some s.beta_0 else none) ∧
    pyKeys (s.initializeAction a).alpha = pyKeys (s.initializeAction a).beta := by
  have hbkeys : ∀ c : String, c ∉ pyKeys s.alpha → c ∉ pyKeys s.beta := by
    intro c hc; rw [← hkeys]; exact hc
  unfold BernoulliBetaTS.initializeAction
  by_cases ha : a ∈ pyKeys s.alpha
  · rw [if_pos ha]
    refine ⟨?_, ?_, hkeys⟩
    · by_cases hb : b ∈ pyKeys s.alpha
      · rw [if_pos hb]
      · have hba : ¬ b = a := fun h => hb (h ▸ ha)
        rw [if_neg hb, if_neg hba]
        exact pyGet?_eq_none_of_not_mem s.alpha b hb
    · by_cases hb : b ∈ pyKeys s.alpha
      · rw [if_pos hb]
      · have hba : ¬ b = a := fun h => hb (h ▸ ha)
        rw [if_neg hb, if_neg hba]
        exact pyGet?_eq_none_of_not_mem s.beta b (hbkeys b hb)
  · rw [if_neg ha]
    refine ⟨?_, ?_, ?_⟩
    · by_cases hb : b ∈ pyKeys s.alpha
      · have hba : ¬ a = b := fun h => ha (h ▸ hb)
        rw [if_pos hb]
        exact pyGet?_pySet_ne s.alpha a b s.alpha_0 hba
      · rw [if_neg hb]
        by_cases hba : b = a
        · subst hba; rw [if_pos rfl]; exact pyGet?_pySet_self s.alpha b s.alpha_0
        · rw [if_neg hba,
            pyGet?_pySet_ne s.alpha a b s.alpha_0 (fun h => hba h.symm)]
          exact pyGet?_eq_none_of_not_mem s.alpha b hb
    · by_cases hb : b ∈ pyKeys s.alpha
      · have hba : ¬ a = b := fun h => ha (h ▸ hb)
        rw [if_pos hb]
        exact pyGet?_pySet_ne s.beta a b s.beta_0 hba
      · rw [if_neg hb]
        by_cases hba : b = a
        · subst hba; rw [if_pos rfl]; exact pyGet?_pySet_self s.beta b s.beta_0
        · rw [if_neg hba,
            pyGet?_pySet_ne s.beta a b s.beta_0 (fun h => hba h.symm)]
          exact pyGet?_eq_none_of_not_mem s.beta b (hbkeys b hb)
    · rw [pyKeys_pySet_of_not_mem s.alpha a s.alpha_0 ha,
        pyKeys_pySet_of_not_mem s.beta a s.beta_0 (hbkeys a ha), hkeys]

theorem initFold_get (actions : List String) :
    ∀ (s : BernoulliBetaTS), pyKeys s.alpha = pyKeys s.beta →
      (∀ b, pyGet? (actions.foldl (fun acc a => acc.initializeAction a) s).alpha b
          = (if b ∈ pyKeys s.alpha then pyGet? s.alpha b
             else if b ∈ actions then some s.alpha_0 else none)) ∧
      (∀ b, pyGet? (actions.foldl (fun acc a => acc.initializeAction a) s).beta b
          = (if b ∈ pyKeys s.alpha then pyGet? s.beta b
             else if b ∈ actions then some s.beta_0 else none)) := by
  induction actions with
  | nil =>
      intro s hkeys
      constructor <;> intro b <;> by_cases hb : b ∈ pyKeys s.alpha <;>
        simp [hb, pyGet?_eq_none_of_not_mem s.alpha b,
          fun h => pyGet?_eq_none_of_not_mem s.beta b (hkeys ▸ h)]
  | cons a rest ih =>
      intro s hkeys
      have hstep := fun b => initializeAction_get s a b hkeys
      have hk1 : pyKeys (s.initializeAction a).alpha = pyKeys (s.initializeAction a).beta :=
        (hstep a).2.2
      have ha0 := initializeAction_alpha0 s a
      obtain ⟨ihA, ihB⟩ := ih (s.initializeAction a) hk1
      rw [List.foldl_cons]
      constructor
      · intro b
        rw [ihA b, ha0.1]
        by_cases hb : b ∈ pyKeys s.alpha
        · have h1 : pyGet? (s.initializeAction a).alpha b = pyGet? s.alpha b := by
            rw [(hstep b).1, if_pos hb]
          have hmem : b ∈ pyKeys (s.initializeAction a).alpha := by
            rw [← pyGet?_isSome_iff_mem, h1, Option.isSome_iff_exists]
            have := (pyGet?_isSome_iff_mem s.alpha b).mpr hb
            rwa [Option.isSome_iff_exists] at this
          rw [if_pos hmem, h1, if_pos hb]
        · rw [if_neg hb]
          by_cases hba : b = a
          · subst hba
            have h1 : pyGet? (s.initializeAction b).alpha b = some s.alpha_0 := by
              rw [(hstep b).1, if_neg hb, if_pos rfl]
            have hmem : b ∈ pyKeys (s.initializeAction b).alpha := by
              rw [← pyGet?_isSome_iff_mem, h1]; rfl
            rw [if_pos hmem, h1]
            simp
          · have h1 : pyGet? (s.initializeAction a).alpha b = none := by
              rw [(hstep b).1, if_neg hb, if_neg hba]
            have hmem : b ∉ pyKeys (s.initializeAction a).alpha := by
              rw [← pyGet?_isSome_iff_mem, h1]; simp
            rw [if_neg hmem]
            simp [hba]
      · intro b
        rw [ihB b, ha0.2]
        by_cases hb : b ∈ pyKeys s.alpha
        · have h1 : pyGet? (s.initializeAction a).beta b = pyGet? s.beta b := by
            rw [(hstep b).2.1, if_pos hb]
          have hmem : b ∈ pyKeys (s.initializeAction a).alpha := by
            rw [← pyGet?_isSome_iff_mem, (hstep b).1, if_pos hb, Option.isSome_iff_exists]
            have := (pyGet?_isSome_iff_mem s.alpha b).mpr hb
            rwa [Option.isSome_iff_exists] at this
          rw [if_pos hmem, h1, if_pos hb]
        · rw [if_neg hb]
          by_cases hba : b = a
          · subst hba
            have h1 : pyGet? (s.initializeAction b).beta b = some s.beta_0 := by
              rw [(hstep b).2.1, if_neg hb, if_pos rfl]
            have hmem : b ∈ pyKeys (s.initializeAction b).alpha := by
              rw [← pyGet?_isSome_iff_mem, (hstep b).1, if_neg hb, if_pos rfl]; rfl
            rw [if_pos hmem, h1]
            simp
          · have h1 : pyGet? (s.initializeAction a).beta b = none := by
              rw [(hstep b).2.1, if_neg hb, if_neg hba]
            have hmem : b ∉ pyKeys (s.initializeAction a).alpha := by
              rw [← pyGet?_isSome_iff_mem, (hstep b).1, if_neg hb, if_neg hba]; simp
            rw [if_neg hmem]
            simp [hba]

/-- C10: `BernoulliBetaTS.update(a, r)` first registers an unseen action at
the prior `(alpha_0, beta_0)`, then changes exactly one parameter of action
`a` — `alpha[a] += 1` when `r = 1`, else `beta[a] += 1` — leaving both
parameters of every other action untouched; and `select_action` changes no
parameter beyond registering unseen candidate actions at the prior.
(`pyKeys s.alpha = pyKeys s.beta` holds for every state the class can reach:
both dicts are only ever extended together by `_initialize_action`.) -/
theorem C10_bbts_update_select_frame (s : BernoulliBetaTS) (a : String) (r : ℚ)
    (sample : String → ℚ) (actions : List String)
    (hkeys : pyKeys s.alpha = pyKeys s.beta) :
    (pyGet? (s.update a r).alpha a
        = some ((pyGet? s.alpha a).getD s.alpha_0 + if r = 1 then 1 else 0)) ∧
    (pyGet? (s.update a r).beta a
        = some ((pyGet? s.beta a).getD s.beta_0 + if r = 1 then 0 else 1)) ∧
    (∀ b, b ≠ a →
      pyGet? (s.update a r).alpha b = pyGet? s.alpha b ∧
      pyGet? (s.update a r).beta b = pyGet? s.beta b) ∧
    (∀ b, pyGet? (s.selectAction sample actions).2.alpha b
        = (if b ∈ pyKeys s.alpha then pyGet? s.alpha b
           else if b ∈ actions then some s.alpha_0 else none)) ∧
    (∀ b, pyGet? (s.selectAction sample actions).2.beta b
        = (if b ∈ pyKeys s.alpha then pyGet? s.beta b
           else if b ∈ actions then some s.beta_0 else none)) := by
  have hstep := fun b => initializeAction_get s a b hkeys
  have hA1 : pyGet? (s.initializeAction a).alpha a
      = some ((pyGet? s.alpha a).getD s.alpha_0) := by
    rw [(hstep a).1]
    by_cases ha : a ∈ pyKeys s.alpha
    · rw [if_pos ha]
      have := (pyGet?_isSome_iff_mem s.alpha a).mpr ha
      rw [Option.isSome_iff_exists] at this
      obtain ⟨v, hv⟩ := this
      rw [hv]; rfl
    · rw [if_neg ha, if_pos rfl, pyGet?_eq_none_of_not_mem s.alpha a ha]; rfl
  have hB1 : pyGet? (s.initializeAction a).beta a
      = some ((pyGet? s.beta a).getD s.beta_0) := by
    rw [(hstep a).2.1]
    by_cases ha : a ∈ pyKeys s.alpha
    · rw [if_pos ha]
      have hb : a ∈ pyKeys s.beta := hkeys ▸ ha
      have := (pyGet?_isSome_iff_mem s.beta a).mpr hb
      rw [Option.isSome_iff_exists] at this
      obtain ⟨v, hv⟩ := this
      rw [hv]; rfl
    · rw [if_neg ha, if_pos rfl, pyGet?_eq_none_of_not_mem s.beta a (hkeys ▸ ha)]; rfl
  have hAb : ∀ b, b ≠ a →
      pyGet? (s.initializeAction a).alpha b = pyGet? s.alpha b := by
    intro b hba
    rw [(hstep b).1]
    by_cases hb : b ∈ pyKeys s.alpha
    · rw [if_pos hb]
    · rw [if_neg hb, if_neg hba, pyGet?_eq_none_of_not_mem s.alpha b hb]
  have hBb : ∀ b, b ≠ a →
      pyGet? (s.initializeAction a).beta b = pyGet? s.beta b := by
    intro b hba
    rw [(hstep b).2.1]
    by_cases hb : b ∈ pyKeys s.alpha
    · rw [if_pos hb]
    · rw [if_neg hb, if_neg hba, pyGet?_eq_none_of_not_mem s.beta b (hkeys ▸ hb)]
  have ha0 := initializeAction_alpha0 s a
  refine ⟨?_, ?_, ?_, (initFold_get actions s hkeys).1, (initFold_get actions s hkeys).2⟩
  · unfold BernoulliBetaTS.update
    by_cases hr : r = 1
    · rw [if_pos hr]
      simp only [if_pos hr]
      rw [pyGet?_pySet_self, hA1]
      rfl
    · rw [if_neg hr]
      simp only [if_neg hr]
      rw [hA1]
      simp
  · unfold BernoulliBetaTS.update
    by_cases hr : r = 1
    · rw [if_pos hr]
      simp only [if_pos hr]
      rw [hB1]
      simp
    · rw [if_neg hr]
      simp only [if_neg hr]
      rw [pyGet?_pySet_self, hB1]
      rfl
  · intro b hba
    unfold BernoulliBetaTS.update
    by_cases hr : r = 1
    · rw [if_pos hr]
      exact ⟨by rw [pyGet?_pySet_ne _ a b _ (fun h => hba h.symm), hAb b hba],
             hBb b hba⟩
    · rw [if_neg hr]
      exact ⟨hAb b hba,
             by rw [pyGet?_pySet_ne _ a b _ (fun h => hba h.symm), hBb b hba]⟩

/-- Witness for C10 at a concrete policy and input. -/
theorem C10_bbts_update_select_frame_witness :
    pyKeys (BernoulliBetaTS.init 1 1).alpha = pyKeys (BernoulliBetaTS.init 1 1).beta ∧
    pyGet? ((BernoulliBetaTS.init 1 1).update "a" 1).alpha "a"
      = some ((pyGet? (BernoulliBetaTS.init 1 1).alpha "a").getD
          (BernoulliBetaTS.init 1 1).alpha_0 + if (1 : ℚ) = 1 then 1 else 0) :=
  ⟨rfl, (C10_bbts_update_select_frame (BernoulliBetaTS.init 1 1) "a" 1
      (fun _ => 0) [] rfl).1⟩

/-! ## C6: item-type mixture encoding and categorical defaults -/

theorem sum_map_div (l : List ℚ) (s : ℚ) : (l.map (· / s)).sum = l.sum / s := by
  induction l with
  | nil => simp
  | cons x xs ih => simp [ih, add_div]

/-- The demographics encoder always yields a vector of the static label
width, whatever is present, absent or unrecognized in the input. -/
theorem length_get_personal_data_encoding (pd : PersonalData) :
    (get_personal_data_encoding pd).length = get_personal_data_labels.length := by
  obtain ⟨g, a, e, r⟩ := pd
  have hlab : get_personal_data_labels.length = 6 := by decide
  rw [hlab]
  simp only [get_personal_data_encoding, PERSONAL_DATA_FEATURES, List.map_cons,
    List.map_nil, List.flatten, List.length_append, List.length_nil]
  cases g <;> cases a <;> cases e <;> cases r <;>
    simp [encodePersonalFeature, personalDataCategoricalValues, CATEGORICAL_TO_NUMERIC,
      personalDataCatValue, personalDataNumValue, categoricalToNumericExplicit,
      numericFeaturesMinMax, leaveOutVars, one_hot_encode] <;>
    (repeat' split) <;> simp [one_hot_encode]

/-- C6 counterexample: `get_intervention_encoding` does **not** return a
vector for every item-type list — a list carrying no recognized type (here
`["Bogus"]`) makes it raise `ValueError` instead of returning the all-zero
vector the claim promises. -/
theorem C6_counterexample_unrecognized_type_raises :
    get_intervention_encoding ["Bogus"] = none ∧
    "Bogus" ∉ INTERVENTION_TYPES := by
  constructor
  · simp [get_intervention_encoding, INTERVENTION_TYPES]
  · simp [INTERVENTION_TYPES]

/-- C6 (amended): for every item-type list all of whose entries are
recognized intervention types, `get_intervention_encoding` returns an
8-component vector that sums to 1 when the list is nonempty and is all-zero
when the list is empty; a list containing an unrecognized tag raises
`ValueError` instead (see the counterexample).  Absent or unrecognized
categorical personal-data values never make `get_personal_data_encoding`
raise: it is total and always yields a vector of the static schema width. -/
theorem C6_intervention_encoding_amended :
    (∀ l : List String, (∀ i ∈ l, i ∈ INTERVENTION_TYPES) →
      ∃ v, get_intervention_encoding l = some v ∧
        v.length = INTERVENTION_TYPES.length ∧
        (l ≠ [] → v.sum = 1) ∧
        (l = [] → v = List.replicate INTERVENTION_TYPES.length 0)) ∧
    (∀ pd : PersonalData,
      (get_personal_data_encoding pd).length = get_personal_data_labels.length) := by
  constructor
  · intro l hl
    have hall : l.all (fun i => i ∈ INTERVENTION_TYPES) = true := by
      rw [List.all_eq_true]
      intro i hi
      exact decide_eq_true (hl i hi)
    rw [get_intervention_encoding, if_pos hall]
    refine ⟨_, rfl, ?_, ?_, ?_⟩
    · cases hs : decide
        ((INTERVENTION_TYPES.map fun i => if i ∈ l then (1 : ℚ) else 0).sum = 0) <;>
        simp_all
    · intro hne
      obtain ⟨t₀, ht₀⟩ := List.exists_mem_of_ne_nil l hne
      have ht₀T : t₀ ∈ INTERVENTION_TYPES := hl t₀ ht₀
      have hmem1 : (1 : ℚ) ∈ INTERVENTION_TYPES.map fun i => if i ∈ l then (1 : ℚ) else 0 := by
        rw [List.mem_map]
        exact ⟨t₀, ht₀T, by simp [ht₀]⟩
      have hnn : ∀ x ∈ INTERVENTION_TYPES.map fun i => if i ∈ l then (1 : ℚ) else 0, 0 ≤ x := by
        intro x hx
        rw [List.mem_map] at hx
        obtain ⟨i, _, rfl⟩ := hx
        split <;> norm_num
      have hge : (1 : ℚ) ≤ (INTERVENTION_TYPES.map fun i => if i ∈ l then (1 : ℚ) else 0).sum :=
        List.single_le_sum hnn 1 hmem1
      have hs0 : (INTERVENTION_TYPES.map fun i => if i ∈ l then (1 : ℚ) else 0).sum ≠ 0 := by
        intro h; rw [h] at hge; norm_num at hge
      rw [if_neg hs0, sum_map_div, div_self hs0]
    · intro hnil
      subst hnil
      simp
  · exact length_get_personal_data_encoding

/-- Witness for the amended C6 at concrete inputs. -/
theorem C6_intervention_encoding_amended_witness :
    (∃ v, get_intervention_encoding ["Education"] = some v ∧
      v.length = INTERVENTION_TYPES.length ∧
      ((["Education"] : List String) ≠ [] → v.sum = 1) ∧
      ((["Education"] : List String) = [] → v = List.replicate INTERVENTION_TYPES.length 0)) ∧
    (get_personal_data_encoding ⟨none, none, none, none⟩).length
      = get_personal_data_labels.length :=
  ⟨C6_intervention_encoding_amended.1 ["Education"] (by decide),
   C6_intervention_encoding_amended.2 ⟨none, none, none, none⟩⟩

/-! ## C7: feature-vector length equals the schema dimension -/

theorem length_encode_frequency (v : ℚ) (d : ℕ) (mn mx : ℚ) :
    (encode_frequency v d mn mx).length = d := by
  simp [encode_frequency]

theorem length_get_intervention_encoding (l : List String) (v : List ℚ)
    (h : get_intervention_encoding l = some v) :
    v.length = INTERVENTION_TYPES.length := by
  unfold get_intervention_encoding at h
  split at h
  · rw [Option.some_inj] at h
    subst h
    split <;> simp
  · exact absurd h (by simp)

theorem length_get_pillar_encoding (p : String) (v : List ℚ)
    (h : get_pillar_encoding p = some v) :
    v.length = (PILLARS.filter fun q => q ∉ leaveOutVars "pillar").length := by
  unfold get_pillar_encoding at h
  split at h
  · rw [Option.some_inj] at h
    subst h
    simp [one_hot_encode]
  · exact absurd h (by simp)

theorem length_get_num_intervention_days_encoding (o : Option ℤ) :
    (get_num_intervention_days_encoding o).length = 1 := by
  cases o <;> simp [get_num_intervention_days_encoding]

/-- C7: for every input on which the feature builder completes, the length
of `get_intervention_feature_vector`'s output equals
`get_dim_intervention_feature_vector()` — the dimensionality is fixed by the
static schema, never by the input values. -/
theorem C7_fv_length_eq_schema_dim (a : InterventionFVArgs) (fv : List ℚ)
    (h : get_intervention_feature_vector a = some fv) :
    fv.length = get_dim_intervention_feature_vector true := by
  unfold get_intervention_feature_vector at h
  cases he : get_encodings a with
  | none => rw [he] at h; exact absurd h (by simp)
  | some e =>
      rw [he] at h
      simp only [Option.some_inj] at h
      subst h
      have hfields : e.D.length = 6 ∧ e.H.length = 5 ∧ e.ND.length = 1 ∧
          e.P.length = 4 ∧ e.MF.length = 1 ∧ e.TF.length = 2 ∧ e.IT.length = 8 ∧
          e.NIT.length = 1 ∧ e.IF.length = 2 ∧ e.RF.length = 2 ∧ e.PR.length = 1 := by
        unfold get_encodings at he
        cases hp : get_pillar_encoding a.pillar with
        | none => rw [hp] at he; exact absurd he (by simp)
        | some P =>
            cases hi : get_intervention_encoding a.intervention with
            | none => rw [hp, hi] at he; exact absurd he (by simp)
            | some IT =>
                rw [hp, hi, Option.some_inj] at he
                subst he
                refine ⟨?_, ?_, ?_, ?_, ?_, ?_, ?_, ?_, ?_, ?_, ?_⟩ <;>
                  simp [length_get_personal_data_encoding, get_hhs_encoding, PILLARS,
                    length_get_num_intervention_days_encoding,
                    length_get_pillar_encoding a.pillar P hp,
                    length_get_intervention_encoding a.intervention IT hi,
                    get_mission_frequency_encoding, get_total_frequency_encoding,
                    get_intervention_frequency_encoding, get_recommendation_frequency_encoding,
                    get_num_int_types_encoding, get_prompted_encoding,
                    length_encode_frequency, leaveOutVars, INTERVENTION_TYPES]
                · decide
      obtain ⟨hD, hH, hND, hP, hMF, hTF, hIT, hNIT, hIF, hRF, hPR⟩ := hfields
      have h45 : get_dim_intervention_feature_vector true = 45 := by decide
      rw [h45]
      simp only [BASE_KEYS, List.map_cons, List.map_nil,
        show INTERVENTION_MAB_FEATURES "D" = true from rfl,
        show INTERVENTION_MAB_FEATURES "H" = true from rfl,
        show INTERVENTION_MAB_FEATURES "Hc" = false from rfl,
        show INTERVENTION_MAB_FEATURES "ND" = true from rfl,
        show INTERVENTION_MAB_FEATURES "P" = true from rfl,
        show INTERVENTION_MAB_FEATURES "MF" = true from rfl,
        show INTERVENTION_MAB_FEATURES "TF" = true from rfl,
        show INTERVENTION_MAB_FEATURES "IT" = true from rfl,
        show INTERVENTION_MAB_FEATURES "NIT" = true from rfl,
        show INTERVENTION_MAB_FEATURES "IF" = true from rfl,
        show INTERVENTION_MAB_FEATURES "RF" = true from rfl,
        show INTERVENTION_MAB_FEATURES "ER" = false from rfl,
        show INTERVENTION_MAB_FEATURES "PR" = true from rfl,
        show INTERVENTION_MAB_FEATURES "MS" = false from rfl,
        show INTERVENTION_MAB_FEATURES "MF_x_TF_sched" = false from rfl,
        show INTERVENTION_MAB_FEATURES "MF_x_RF_sched" = true from rfl,
        show INTERVENTION_MAB_FEATURES "MF_x_IF_sched" = true from rfl,
        show INTERVENTION_MAB_FEATURES "NIT_x_IF_sched" = false from rfl,
        show INTERVENTION_MAB_FEATURES "AGEc_x_RF_sched" = true from rfl,
        show INTERVENTION_MAB_FEATURES "AGEc_x_IT" = true from rfl,
        show INTERVENTION_MAB_FEATURES "HHS_c_x_RF_sched" = false from rfl,
        show INTERVENTION_MAB_FEATURES "HHS_c_x_IT" = false from rfl,
        show INTERVENTION_MAB_FEATURES "D_H" = false from rfl,
        show INTERVENTION_MAB_FEATURES "D_P" = false from rfl,
        show INTERVENTION_MAB_FEATURES "D_IT" = false from rfl,
        show INTERVENTION_MAB_FEATURES "D_MF" = false from rfl,
        show INTERVENTION_MAB_FEATURES "D_TF" = false from rfl,
        show INTERVENTION_MAB_FEATURES "D_IF" = false from rfl,
        show INTERVENTION_MAB_FEATURES "D_RF" = false from rfl,
        show INTERVENTION_MAB_FEATURES "P_IT" = false from rfl,
        show INTERVENTION_MAB_FEATURES "P_MF" = false from rfl,
        show INTERVENTION_MAB_FEATURES "P_TF" = false from rfl,
        show INTERVENTION_MAB_FEATURES "P_IF" = false from rfl,
        show INTERVENTION_MAB_FEATURES "I_IF" = false from rfl,
        show INTERVENTION_MAB_FEATURES "I_RF" = false from rfl,
        show basePart e "D" = e.D from rfl,
        show basePart e "H" = e.H from rfl,
        show basePart e "ND" = e.ND from rfl,
        show basePart e "P" = e.P from rfl,
        show basePart e "MF" = e.MF from rfl,
        show basePart e "TF" = e.TF from rfl,
        show basePart e "IT" = e.IT from rfl,
        show basePart e "NIT" = e.NIT from rfl,
        show basePart e "IF" = e.IF from rfl,
        show basePart e "RF" = e.RF from rfl,
        show basePart e "PR" = e.PR from rfl,
        INTERACTION_PAIRS, if_true, if_false, Bool.false_eq_true, Bool.true_eq_false]
      simp [List.length_append, hD, hH, hND, hP, hMF, hTF, hIT, hNIT, hIF, hRF, hPR]

/-- Witness for C7: a concrete input whose feature vector has the schema
dimension. -/
theorem C7_fv_length_eq_schema_dim_witness :
    ∃ fv, get_intervention_feature_vector exFVArgs = some fv ∧
      fv.length = get_dim_intervention_feature_vector true := by
  have hsome : (get_intervention_feature_vector exFVArgs).isSome := by
    rw [get_intervention_feature_vector]
    have he : (get_encodings exFVArgs).isSome := by
      rw [get_encodings]
      have hp : (get_pillar_encoding exFVArgs.pillar).isSome := by
        rw [get_pillar_encoding]
        simp [exFVArgs, PILLARS]
      have hi : (get_intervention_encoding exFVArgs.intervention).isSome := by
        rw [get_intervention_encoding]
        simp [exFVArgs, INTERVENTION_TYPES]
      rw [Option.isSome_iff_exists] at hp hi
      obtain ⟨P, hP⟩ := hp
      obtain ⟨IT, hIT⟩ := hi
      rw [hP, hIT]
      rfl
    rw [Option.isSome_iff_exists] at he
    obtain ⟨e, hee⟩ := he
    rw [hee]
    rfl
  rw [Option.isSome_iff_exists] at hsome
  obtain ⟨fv, hfv⟩ := hsome
  exact ⟨fv, hfv, C7_fv_length_eq_schema_dim exFVArgs fv hfv⟩

/-! ## C3: binder FIFO binding -/

theorem find?_eq_head_filter {α : Type} (p : α → Bool) (l : List α) :
    l.find? p = (l.filter p).head? := by
  induction l with
  | nil => rfl
  | cons x xs ih =>
      by_cases h : p x
      · rw [List.find?_cons_of_pos _ h, List.filter_cons_of_pos h, List.head?_cons]
      · rw [List.find?_cons_of_neg _ h, List.filter_cons_of_neg h, ih]

theorem get?_tail_succ {α : Type} (l : List α) (n : ℕ) :
    l.tail.get? n = l.get? (n + 1) := by
  cases l <;> simp

theorem bindScan_fst (rid : String) (mid : Option String) (q : List Snapshot) :
    (bindScan rid mid q).1 = q.find? (snapMatches rid mid) := by
  induction q with
  | nil => rfl
  | cons s dq ih =>
      by_cases h : snapMatches rid mid s
      · simp [bindScan, h, List.find?_cons_of_pos _ h]
      · simp [bindScan, h, List.find?_cons_of_neg _ (by simpa using h), ih]

theorem bindScan_snd_filter (rid : String) (mid : Option String) (q : List Snapshot) :
    ((bindScan rid mid q).2).filter (snapMatches rid mid)
      = (q.filter (snapMatches rid mid)).tail := by
  induction q with
  | nil => rfl
  | cons s dq ih =>
      by_cases h : snapMatches rid mid s
      · simp [bindScan, h, List.filter_cons_of_pos h]
      · simp [bindScan, h, List.filter_cons_of_neg (by simpa using h), ih]

theorem bindScan_snd_filter_not (rid : String) (mid : Option String) (q : List Snapshot) :
    ((bindScan rid mid q).2).filter (fun s => ! snapMatches rid mid s)
      = q.filter (fun s => ! snapMatches rid mid s) := by
  induction q with
  | nil => rfl
  | cons s dq ih =>
      by_cases h : snapMatches rid mid s
      · simp [bindScan, h, List.filter_cons, ih]
      · simp [bindScan, h, List.filter_cons, ih]

theorem bindScan_snd_of_none (rid : String) (mid : Option String) (q : List Snapshot)
    (h : q.find? (snapMatches rid mid) = none) : (bindScan rid mid q).2 = q := by
  induction q with
  | nil => rfl
  | cons s dq ih =>
      rw [List.find?_cons] at h
      cases hs : snapMatches rid mid s
      · rw [hs] at h
        simp [bindScan, hs, ih h]
      · rw [hs] at h; exact absurd h (by simp)

theorem bindOnSent_fst (b : ProcessBinder) (u p rid : String) (mid : Option String)
    (pid : String) :
    (b.bindOnSent u p rid mid pid).1 = (bindScan rid mid (b.pending u p)).1 := by
  unfold ProcessBinder.bindOnSent
  rcases h : bindScan rid mid (b.pending u p) with ⟨found, q'⟩
  cases found <;> simp

theorem bindOnSent_pending (b : ProcessBinder) (u p rid : String) (mid : Option String)
    (pid : String) (u' p' : String) :
    (b.bindOnSent u p rid mid pid).2.pending u' p'
      = (if u' = u ∧ p' = p then (bindScan rid mid (b.pending u p)).2
         else b.pending u' p') := by
  unfold ProcessBinder.bindOnSent
  rcases h : bindScan rid mid (b.pending u p) with ⟨found, q'⟩
  cases found <;> simp

/-- C3: `bind_on_sent` consumes exactly the first pending snapshot matching
the event's item id (and its mission id when given) and returns it; binding
`k` "sent" events in sequence therefore resolves them to the 1st, 2nd, …
matching snapshots in FIFO order; and a bind with no matching pending
snapshot returns not-found and leaves the pending queue (and the proc map)
unchanged. -/
theorem C3_binder_fifo :
    (∀ (b : ProcessBinder) (u p rid : String) (mid : Option String) (pid : String),
      (b.bindOnSent u p rid mid pid).1
          = ((b.pending u p).filter (snapMatches rid mid)).head? ∧
      ((b.bindOnSent u p rid mid pid).2.pending u p).filter (snapMatches rid mid)
          = ((b.pending u p).filter (snapMatches rid mid)).tail ∧
      ((b.bindOnSent u p rid mid pid).2.pending u p).filter
            (fun s => ! snapMatches rid mid s)
          = (b.pending u p).filter (fun s => ! snapMatches rid mid s)) ∧
    (∀ (b : ProcessBinder) (u p rid : String) (mid : Option String) (pids : List String)
        (i : ℕ), i < pids.length →
      (bindSeq u p rid mid pids b).1.getD i none
          = ((b.pending u p).filter (snapMatches rid mid)).get? i) ∧
    (∀ (b : ProcessBinder) (u p rid : String) (mid : Option String) (pid : String),
      (b.pending u p).find? (snapMatches rid mid) = none →
      (b.bindOnSent u p rid mid pid).1 = none ∧
      (∀ u' p', (b.bindOnSent u p rid mid pid).2.pending u' p' = b.pending u' p') ∧
      (b.bindOnSent u p rid mid pid).2.proc_map = b.proc_map) := by
  have hfst : ∀ (b : ProcessBinder) (u p rid : String) (mid : Option String) (pid : String),
      (b.bindOnSent u p rid mid pid).1
        = ((b.pending u p).filter (snapMatches rid mid)).head? := by
    intro b u p rid mid pid
    rw [bindOnSent_fst, bindScan_fst, find?_eq_head_filter]
  have hpend : ∀ (b : ProcessBinder) (u p rid : String) (mid : Option String) (pid : String),
      (b.bindOnSent u p rid mid pid).2.pending u p = (bindScan rid mid (b.pending u p)).2 := by
    intro b u p rid mid pid
    rw [bindOnSent_pending]
    simp
  refine ⟨fun b u p rid mid pid => ⟨hfst b u p rid mid pid, ?_, ?_⟩, ?_, ?_⟩
  · rw [hpend, bindScan_snd_filter]
  · rw [hpend, bindScan_snd_filter_not]
  · intro b u p rid mid pids
    induction pids generalizing b with
    | nil => intro i hi; simp at hi
    | cons pid pids ih =>
        intro i hi
        match i with
        | 0 =>
            show ((b.bindOnSent u p rid mid pid).1 :: _).getD 0 none = _
            rw [List.getD_cons_zero, hfst b u p rid mid pid]
            cases ((b.pending u p).filter (snapMatches rid mid)) <;> simp
        | i + 1 =>
            show ((b.bindOnSent u p rid mid pid).1 :: _).getD (i + 1) none = _
            rw [List.getD_cons_succ]
            have hrec := ih (b.bindOnSent u p rid mid pid).2 i (by
              simpa using Nat.lt_of_succ_lt_succ hi)
            rw [hrec, hpend, bindScan_snd_filter, get?_tail_succ]
  · intro b u p rid mid pid hmiss
    refine ⟨?_, ?_, ?_⟩
    · rw [bindOnSent_fst, bindScan_fst]
      exact hmiss
    · intro u' p'
      rw [bindOnSent_pending]
      by_cases h : u' = u ∧ p' = p
      · rw [if_pos h, bindScan_snd_of_none rid mid _ hmiss, h.1, h.2]
      · rw [if_neg h]
    · have h2 := bindScan_fst rid mid (b.pending u p)
      rw [hmiss] at h2
      unfold ProcessBinder.bindOnSent
      rcases hscan : bindScan rid mid (b.pending u p) with ⟨found, q'⟩
      rw [hscan] at h2
      simp only at h2
      subst h2
      simp

/-- Witness for C3: three enqueued decisions for item X resolve 1, 2, 3 in
order, and a bind for an item with no pending match returns not-found. -/
theorem C3_binder_fifo_witness :
    ((bindSeq "u" "p" "X" (some "m") ["c1", "c2", "c3"] exBinder).1.getD 2 none
        = ((exBinder.pending "u" "p").filter (snapMatches "X" (some "m"))).get? 2) ∧
    ((2 : ℕ) < (["c1", "c2", "c3"] : List String).length) ∧
    ((exBinder.pending "u" "p").find? (snapMatches "Z" none) = none) ∧
    ((exBinder.bindOnSent "u" "p" "Z" none "c9").1 = none) :=
  ⟨C3_binder_fifo.2.1 exBinder "u" "p" "X" (some "m") ["c1", "c2", "c3"] 2 (by decide),
   by decide, by decide,
   ((C3_binder_fifo.2.2 exBinder "u" "p" "Z" none "c9") (by decide)).1⟩

/-! ## C4: proc-map capacity behaviour -/

theorem pySet_of_not_mem {β : Type} (d : List (String × β)) (k : String) (v : β)
    (h : k ∉ pyKeys d) : pySet d k v = d ++ [(k, v)] := by
  induction d with
  | nil => rfl
  | cons e d ih =>
      obtain ⟨k₀, v₀⟩ := e
      rw [pyKeys_cons, List.mem_cons] at h
      push_neg at h
      have h₀ : k₀ ≠ k := fun hc => h.1 hc.symm
      simp only [pySet, if_neg h₀, List.cons_append, ih h.2]

/-- C4 counterexample: a bound snapshot inserted by `bind_on_sent` when the
cache already holds the capacity bound does **not** evict anything — the
cache grows past its cap (here to 2 entries with cap 1). -/
theorem C4_counterexample_bind_exceeds_cap :
    exFullBinder.cap = 1 ∧ exFullBinder.proc_map.length = 1 ∧
    (exFullBinder.bindOnSent "u" "p" "X" none "p2").2.proc_map.length = 2 := by
  refine ⟨rfl, rfl, ?_⟩
  rfl

/-- C4 (amended): the capacity bound is enforced only on the replay path —
`set_snapshot` (via `_remember`) inserting a fresh correlation id into a
full cache evicts exactly the oldest-inserted entry, keeping the size at
the cap; `bind_on_sent` records its binding by plain dict assignment with
no eviction, so the bind path can push the cache past the cap (see the
counterexample); and `release` always removes the entry regardless of
capacity pressure. -/
theorem C4_eviction_amended :
    (∀ (b : ProcessBinder) (pid : String) (s : Snapshot),
      pid ∉ pyKeys b.proc_map → b.proc_map.length = b.cap → 0 < b.cap →
      (b.setSnapshot pid s).proc_map = b.proc_map.tail ++ [(pid, s)] ∧
      (b.setSnapshot pid s).proc_map.length = b.cap) ∧
    (∀ (b : ProcessBinder) (u p rid : String) (mid : Option String) (pid : String)
        (snap : Snapshot),
      (bindScan rid mid (b.pending u p)).1 = some snap →
      (b.bindOnSent u p rid mid pid).2.proc_map = pySet b.proc_map pid snap) ∧
    (∀ (b : ProcessBinder) (pid : String),
      (pyKeys b.proc_map).Nodup →
      pyGet? (b.release pid).proc_map pid = none) := by
  refine ⟨?_, ?_, ?_⟩
  · intro b pid s hfresh hfull hpos
    unfold ProcessBinder.setSnapshot ProcessBinder.remember
    rw [pySet_of_not_mem b.proc_map pid s hfresh]
    have hlt : b.cap < (b.proc_map ++ [(pid, s)]).length := by
      rw [List.length_append, hfull]
      simp
    rw [if_pos hlt]
    cases hd : b.proc_map with
    | nil =>
        exact absurd hpos (by rw [← hfull, hd]; simp)
    | cons e d' =>
        obtain ⟨k₀, v₀⟩ := e
        have hk₀ : k₀ ∈ pyKeys b.proc_map := by rw [hd]; simp [pyKeys]
        have hk₀pid : k₀ ≠ pid := fun hc => hfresh (hc ▸ hk₀)
        simp only [List.cons_append, pyKeys_cons]
        rw [if_pos hk₀pid]
        have hlen : d'.length + 1 = b.cap := by
          rw [← hfull, hd]; simp
        constructor
        · simp [pyPop]
        · simp [pyPop]
          omega
  · intro b u p rid mid pid snap hfound
    unfold ProcessBinder.bindOnSent
    rcases hscan : bindScan rid mid (b.pending u p) with ⟨found, q'⟩
    rw [hscan] at hfound
    simp only at hfound
    subst hfound
    simp
  · intro b pid hnd
    unfold ProcessBinder.release
    exact pyPop_pyGet?_self_of_nodup b.proc_map pid hnd

/-- Witness for the amended C4 at the concrete full binder. -/
theorem C4_eviction_amended_witness :
    ("p2" ∉ pyKeys exFullBinder.proc_map) ∧
    (exFullBinder.proc_map.length = exFullBinder.cap) ∧
    ((exFullBinder.setSnapshot "p2" exSnap2).proc_map
        = exFullBinder.proc_map.tail ++ [("p2", exSnap2)]) ∧
    (pyGet? (exFullBinder.release "p1").proc_map "p1" = none) :=
  ⟨by decide, rfl,
   (C4_eviction_amended.1 exFullBinder "p2" exSnap2 (by decide) rfl (by decide)).1,
   C4_eviction_amended.2.2 exFullBinder "p1" (by decide)⟩

/-! ## C9: select sorts strictly before accomplish on timestamp ties -/

instance : IsTotal MissionEvent missionEventLE := by
  constructor
  intro a b
  unfold missionEventLE
  rcases lt_trichotomy a.ts b.ts with h | h | h
  · exact Or.inl (Or.inl h)
  · rcases Nat.le_total (missionEventOrder a.kind) (missionEventOrder b.kind) with hk | hk
    · exact Or.inl (Or.inr ⟨h, hk⟩)
    · exact Or.inr (Or.inr ⟨h.symm, hk⟩)
  · exact Or.inr (Or.inl h)

instance : IsTrans MissionEvent missionEventLE := by
  constructor
  intro a b c hab hbc
  unfold missionEventLE at hab hbc ⊢
  rcases hab with h₁ | ⟨h₁, k₁⟩
  · rcases hbc with h₂ | ⟨h₂, _⟩
    · exact Or.inl (h₁.trans h₂)
    · exact Or.inl (h₂ ▸ h₁)
  · rcases hbc with h₂ | ⟨h₂, k₂⟩
    · exact Or.inl (h₁ ▸ h₂)
    · exact Or.inr ⟨h₁.trans h₂, k₁.trans k₂⟩

/-- C9: after the per-user sort in `ContentSelection.update` (stable sort by
the key `(timestamp, {"select": 0, "accomplish": 1})`), whenever two events
at positions `i < j` share a timestamp and have different tags, the earlier
one is the "select" and the later one the "accomplish" — so a same-timestamp
selection/accomplishment pair is always applied selection first. -/
theorem C9_select_before_accomplish (l : List MissionEvent) (i j : ℕ)
    (hi : i < (sortMissionEvents l).length) (hj : j < (sortMissionEvents l).length)
    (hij : i < j)
    (hts : ((sortMissionEvents l).get ⟨i, hi⟩).ts = ((sortMissionEvents l).get ⟨j, hj⟩).ts)
    (hkind : ((sortMissionEvents l).get ⟨i, hi⟩).kind ≠ ((sortMissionEvents l).get ⟨j, hj⟩).kind) :
    ((sortMissionEvents l).get ⟨i, hi⟩).kind = MissionEventKind.select ∧
    ((sortMissionEvents l).get ⟨j, hj⟩).kind = MissionEventKind.accomplish := by
  have hs : (sortMissionEvents l).Sorted missionEventLE :=
    List.sorted_insertionSort missionEventLE l
  have hrel := hs.rel_get_of_lt (a := ⟨i, hi⟩) (b := ⟨j, hj⟩) (by simpa using hij)
  unfold missionEventLE at hrel
  rcases hrel with h | ⟨_, hk⟩
  · rw [hts] at h
    exact absurd h (lt_irrefl _)
  · cases hki : ((sortMissionEvents l).get ⟨i, hi⟩).kind <;>
      cases hkj : ((sortMissionEvents l).get ⟨j, hj⟩).kind
    · exact absurd (hki ▸ hkj ▸ rfl) hkind
    · exact ⟨rfl, rfl⟩
    · rw [hki, hkj] at hk
      simp [missionEventOrder] at hk
    · exact absurd (hki ▸ hkj ▸ rfl) hkind

/-- Witness for C9 at a concrete event list with a timestamp tie. -/
theorem C9_select_before_accomplish_witness :
    ((sortMissionEvents exEvents).get ⟨0, by decide⟩).kind = MissionEventKind.select ∧
    ((sortMissionEvents exEvents).get ⟨1, by decide⟩).kind = MissionEventKind.accomplish :=
  C9_select_before_accomplish exEvents 0 1 (by decide) (by decide) (by decide)
    (by decide) (by decide)

/-! ## C8: intervention-start time -/

theorem applyNewMission_of_started (u : CSUser) (m : MissionRecord)
    (h : u.missions_started = true) :
    (u.applyNewMission m).intervention_start_date = u.intervention_start_date ∧
    (u.applyNewMission m).missions_started = true := by
  unfold CSUser.applyNewMission
  simp [h]

theorem applyNewMission_fold_of_started (ms : List MissionRecord) :
    ∀ (u : CSUser), u.missions_started = true →
      (ms.foldl CSUser.applyNewMission u).intervention_start_date
          = u.intervention_start_date ∧
      (ms.foldl CSUser.applyNewMission u).missions_started = true := by
  induction ms with
  | nil => intro u h; exact ⟨rfl, h⟩
  | cons m ms ih =>
      intro u h
      rw [List.foldl_cons]
      obtain ⟨h1, h2⟩ := applyNewMission_of_started u m h
      obtain ⟨h3, h4⟩ := ih (u.applyNewMission m) h2
      exact ⟨h3.trans h1, h4⟩

/-- C8 counterexample: the first mission selection sets user u's
intervention start to the mission's timestamp (5), but when u re-appears in
a batch's new-user records, `UserManager.add_users` replaces the in-memory
user and the intervention start reverts to the enrolment date (100) — a
subsequent operation changed it. -/
theorem C8_counterexample_readd_resets :
    ((pyGet? exManager1.users "u").map fun u => u.intervention_start_date)
        = some (some 5) ∧
    ((pyGet? exManager2.users "u").map fun u => u.intervention_start_date)
        = some (some 100) := by
  constructor <;> rfl

/-- C8 (amended): for a given in-memory `User` object the intervention-start
time is set exactly once, by the first mission selection: once
`missions_started` holds, no later mission selection changes it, and the
first selection stamps it with the first new mission's selection timestamp.
But a user re-appearing in a batch's new-user records is *re-created* by
`UserManager.add_users` — the fresh user record has `missions_started`
cleared and `intervention_start_date` reset to the enrolment date, so the
invariant holds only per user object, not across re-registration (see the
counterexample). -/
theorem C8_intervention_start_amended :
    (∀ (u : CSUser) (ms : List MissionRecord), u.missions_started = true →
      (u.updateMissionsAndContents ms).intervention_start_date
          = u.intervention_start_date) ∧
    (∀ (u : CSUser) (m : MissionRecord) (ms : List MissionRecord),
      u.missions_started = false →
      (u.updateMissionsAndContents (m :: ms)).intervention_start_date
          = some m.selection_timestamp ∧
      (u.updateMissionsAndContents (m :: ms)).missions_started = true) ∧
    (∀ (mgr : UserManager) (uid : String) (d : NewUserData),
      pyGet? (mgr.addUsers [(uid, d)]).users uid
        = some { user_id := uid, intervention_start_date := some d.enrolmentDate,
                 missions_started := false, new_plan_required := false,
                 selected_missions_and_contents := [], only_one_rec_already := [],
                 active := true }) := by
  refine ⟨?_, ?_, ?_⟩
  · intro u ms h
    unfold CSUser.updateMissionsAndContents
    exact (applyNewMission_fold_of_started ms u h).1
  · intro u m ms h
    unfold CSUser.updateMissionsAndContents
    rw [List.foldl_cons]
    have hstep : (u.applyNewMission m).missions_started = true ∧
        (u.applyNewMission m).intervention_start_date = some m.selection_timestamp := by
      unfold CSUser.applyNewMission
      simp [h]
    obtain ⟨h3, h4⟩ := applyNewMission_fold_of_started ms (u.applyNewMission m) hstep.1
    exact ⟨h3.trans hstep.2, h4⟩
  · intro mgr uid d
    unfold UserManager.addUsers
    rw [List.foldl_cons, List.foldl_nil]
    exact pyGet?_pySet_self mgr.users uid _

/-- Witness for the amended C8 at concrete inputs. -/
theorem C8_intervention_start_amended_witness :
    ((({ user_id := "u", intervention_start_date := some 100, missions_started := false,
         new_plan_required := false, selected_missions_and_contents := [],
         only_one_rec_already := [], active := true } : CSUser).updateMissionsAndContents
           [exMissionRecord]).intervention_start_date
        = some exMissionRecord.selection_timestamp) ∧
    (pyGet? exManager0.users "u"
        = some { user_id := "u", intervention_start_date := some (100 : ℤ),
                 missions_started := false, new_plan_required := false,
                 selected_missions_and_contents := [], only_one_rec_already := [],
                 active := true }) :=
  ⟨(C8_intervention_start_amended.2.1 _ exMissionRecord [] rfl).1,
   C8_intervention_start_amended.2.2 { users := [], active_user_ids := [] } "u" ⟨100⟩⟩

/-! ## C2: the acceptance gate and the per-mission floor -/

set_option maxHeartbeats 2000000 in
/-- C2 counterexample: a completed two-mission slate-generation call in
which mission m1 ends with exactly 3 selected recommendations although a
candidate (R2) is still available and the bandit was queried with estimated
reward 3/10 ≤ 0.5 for the remaining slots.  The selected-so-far count (3)
is ≤ MIN_NUM_REC_PER_MISSION (3), so under the claim selection would have
been forced and a 4th item added; the code rejects instead — the floor
stops forcing once `count` (= selected + 1) exceeds MIN. -/
theorem C2_counterexample_floor_not_inclusive :
    ((getRecommendationsToSend exCatalog exGateOracle ["m1", "m2"] exAvailPair []).map
        (fun st => (st.selected, (pyGet? st.avail "m1").getD []))
      = some ([("R1", "m1"), ("R1", "m1"), ("R1", "m1")], ["R2"])) ∧
    ((exGateOracle 3).2 ≤ 1/2) ∧
    ((3 : ℕ) ≤ MIN_NUM_REC_PER_MISSION) := by
  refine ⟨?_, by norm_num [exGateOracle], by decide⟩
  have hmix : get_intervention_encoding ["Education"] = some [1, 0, 0, 0, 0, 0, 0, 0] := by
    simp +decide [get_intervention_encoding, INTERVENTION_TYPES]
  have hgate1 : ¬ ((1 : ℚ) ≤ 1/2) := by norm_num
  have hgate2 : (3/10 : ℚ) ≤ 1/2 := by norm_num
  have hgate2i : (3/10 : ℚ) ≤ 2⁻¹ := by norm_num
  have hone : (1 : ℚ) ≠ 0 := by norm_num
  have hzero : ¬ ((0 : ℚ) ≠ 0) := by norm_num
  simp [getRecommendationsToSend, fillSlots, selectRecommendation, src52Filter,
    updateFrequencyOffsets, updateAvailRecommendations, updateAvailOneMission,
    sr52Step, exclusivityStep,
    firstOccurrences, pyGet?, pySet, pyRemove, pyKeys, hmix, hgate1, hgate2, hgate2i,
    hone, hzero, INTERVENTION_TYPES, exCatalog, exGateOracle, exAvailPair,
    MIN_NUM_REC_PER_MISSION, MAX_NUM_REC_PER_MISSION,
    MAX_SAME_REC_SENT_PER_MISSION, MAX_DISTINCT_REC_PER_MISSION]

/-- C2 (amended): in every slot-filling iteration, given candidates remain
and the bandit returns a choice, the choice is rejected (no item for that
slot) exactly when its estimated reward is ≤ 0.5 **and** the 1-based
position `count` (= items already selected for the mission, plus one)
exceeds MIN_NUM_REC_PER_MISSION; i.e. selection is forced while strictly
fewer than MIN items have been accepted (`selected ≤ MIN − 1`), not while
`selected ≤ MIN`.  A rejected slot leaves the loop state unchanged and
moves to the next attempt. -/
theorem C2_gate_amended :
    (∀ (oracleIdx : ℕ) (oracleER : ℚ) (cands onlyOne : List String) (count : ℕ),
      cands ≠ [] → oracleIdx < (src52Filter cands onlyOne).length →
      (selectRecommendation oracleIdx oracleER cands onlyOne
          (decide (count ≤ MIN_NUM_REC_PER_MISSION)) = some none
        ↔ (oracleER ≤ 1/2 ∧ MIN_NUM_REC_PER_MISSION < count))) ∧
    (∀ (recs : String → List String) (oracle : ℕ → ℕ × ℚ) (m : String)
        (fuel count step : ℕ) (st : SlateState),
      ((pyGet? st.avail m).getD []).isEmpty = false →
      selectRecommendation (oracle step).1 (oracle step).2 ((pyGet? st.avail m).getD [])
          st.onlyOne (decide (count ≤ MIN_NUM_REC_PER_MISSION)) = some none →
      fillSlots recs oracle m (fuel + 1) count step st
        = fillSlots recs oracle m fuel count (step + 1) st) := by
  constructor
  · intro oracleIdx oracleER cands onlyOne count hne hidx
    unfold selectRecommendation
    rw [if_neg (by simp [List.isEmpty_iff, hne])]
    rw [List.get?_eq_get hidx]
    by_cases hforce : count ≤ MIN_NUM_REC_PER_MISSION
    · rw [decide_eq_true hforce]
      simp [hforce]
    · rw [decide_eq_false hforce]
      by_cases hg : oracleER ≤ 1/2
      · simp [hg, Nat.lt_of_not_le hforce]
      · have hg' : ¬ oracleER ≤ (2⁻¹ : ℚ) := by rwa [← one_div]
        simp [hg, hg']
  · intro recs oracle m fuel count step st hne hsel
    conv_lhs => rw [fillSlots]
    rw [if_neg (by simp [hne]), hsel]

/-- Witness for the amended C2: with 3 items already selected (count 4) and
estimated reward 0, the choice is rejected. -/
theorem C2_gate_amended_witness :
    selectRecommendation 0 0 ["R1"] [] (decide (4 ≤ MIN_NUM_REC_PER_MISSION)) = some none
      ↔ ((0 : ℚ) ≤ 1/2 ∧ MIN_NUM_REC_PER_MISSION < 4) :=
  C2_gate_amended.1 0 0 ["R1"] [] 4 (by decide) (by decide)

/-! ## C1: slate quota invariants -/

/-- The per-mission selection-count dict
(`mission_to_selected_rec_to_count[mission]`, `{}` when absent). -/
def missionCount (st : SlateState) (m : String) : List (String × ℕ) :=
  (pyGet? st.selCount m).getD []

/-- The loop invariant of `get_recommendations_to_send` that the quota
properties rest on, relative to the user's `only_one_rec_already` list at
call entry (`onlyOne0`). -/
structure SlateInv (onlyOne0 : List String) (st : SlateState) : Prop where
  count_eq : ∀ m r, pyGet? (missionCount st m) r
      = (if st.selected.count (r, m) = 0 then none else some (st.selected.count (r, m)))
  keys_nodup : ∀ m, (pyKeys (missionCount st m)).Nodup
  same_cap : ∀ m r, MAX_SAME_REC_SENT_PER_MISSION ≤ st.selected.count (r, m) →
      r ∉ (pyGet? st.avail m).getD []
  count_le : ∀ m r, st.selected.count (r, m) ≤ MAX_SAME_REC_SENT_PER_MISSION
  distinct_le : ∀ m, (missionCount st m).length ≤ MAX_DISTINCT_REC_PER_MISSION
  distinct_cap : ∀ m, MAX_DISTINCT_REC_PER_MISSION ≤ (missionCount st m).length →
      ∀ r ∈ (pyGet? st.avail m).getD [], r ∈ pyKeys (missionCount st m)
  avail_nodup : ∀ m, ((pyGet? st.avail m).getD []).Nodup
  sr52_le : st.selected.countP (fun pr => pr.1 = "SRc52")
      ≤ if "SRc52" ∈ onlyOne0 then 0 else 1
  sr52_mem : 1 ≤ st.selected.countP (fun pr => pr.1 = "SRc52") → "SRc52" ∈ st.onlyOne
  only_mono : ∀ x ∈ onlyOne0, x ∈ st.onlyOne

theorem src52Filter_spec (cands onlyOne : List String) (x : String)
    (hx : x ∈ src52Filter cands onlyOne) :
    x ∈ cands ∧ (x = "SRc52" → "SRc52" ∉ onlyOne) := by
  unfold src52Filter at hx
  by_cases h52 : "SRc52" ∈ cands
  · rw [if_pos h52] at hx
    by_cases ho : "SRc52" ∉ onlyOne
    · rw [if_pos ho] at hx
      simp at hx
      subst hx
      exact ⟨h52, fun _ => ho⟩
    · rw [if_neg ho] at hx
      push_neg at ho
      have hmem := List.mem_filter.mp hx
      refine ⟨hmem.1, fun hx52 => ?_⟩
      have : x ≠ "SRc52" := by simpa using hmem.2
      exact absurd hx52 this
  · rw [if_neg h52] at hx
    exact ⟨hx, fun hx52 => absurd (hx52 ▸ hx) h52⟩

theorem selectRecommendation_some_spec (idx : ℕ) (er : ℚ) (cands onlyOne : List String)
    (sa : Bool) (sel : String)
    (h : selectRecommendation idx er cands onlyOne sa = some (some sel)) :
    sel ∈ cands ∧ (sel = "SRc52" → "SRc52" ∉ onlyOne) := by
  unfold selectRecommendation at h
  split at h
  · simp at h
  · cases hg : (src52Filter cands onlyOne).get? idx with
    | none => rw [hg] at h; simp at h
    | some s =>
        rw [hg] at h
        simp only at h
        split at h
        · simp at h
        · rw [Option.some_inj, Option.some_inj] at h
          subst h
          exact src52Filter_spec cands onlyOne s (List.get?_mem hg)

theorem updateFrequencyOffsets_spec (recs : String → List String)
    (sel m : String) (st st2 : SlateState)
    (h : updateFrequencyOffsets recs sel m st = some st2) :
    ∃ cnts availM availM2,
      cnts = pySet ((pyGet? st.selCount m).getD []) sel
          (((pyGet? ((pyGet? st.selCount m).getD []) sel).getD 0) + 1) ∧
      st2.selected = st.selected ∧
      st2.onlyOne = st.onlyOne ∧
      st2.selCount = pySet st.selCount m cnts ∧
      pyGet? st.avail m = some availM ∧
      st2.avail = pySet st.avail m availM2 ∧
      (∀ x ∈ availM2, x ∈ availM) ∧
      (availM.Nodup → availM2.Nodup) ∧
      (availM.Nodup → MAX_SAME_REC_SENT_PER_MISSION ≤ (pyGet? cnts sel).getD 0 →
          sel ∉ availM2) ∧
      (MAX_DISTINCT_REC_PER_MISSION ≤ cnts.length →
          ∀ r ∈ availM2, r ∈ pyKeys cnts) ∧
      (sel ∈ availM → (pyGet? cnts sel).getD 0 < MAX_SAME_REC_SENT_PER_MISSION →
          sel ∈ availM2) := by
  simp only [updateFrequencyOffsets] at h
  have hself : pyGet? (pySet ((pyGet? st.selCount m).getD []) sel
      (((pyGet? ((pyGet? st.selCount m).getD []) sel).getD 0) + 1)) sel
      = some (((pyGet? ((pyGet? st.selCount m).getD []) sel).getD 0) + 1) :=
    pyGet?_pySet_self _ _ _
  split at h
  case h_1 => exact absurd h (by simp)
  case h_2 mix hmix =>
    split at h
    case h_1 => exact absurd h (by simp)
    case h_2 availM havail =>
      split at h
      case h_1 => exact absurd h (by simp)
      case h_2 availM1 hstep1 =>
        rw [Option.some_inj] at h
        subst h
        refine ⟨_, availM, _, rfl, rfl, rfl, rfl, havail, rfl, ?_, ?_, ?_, ?_, ?_⟩
        · -- availM2 ⊆ availM
          intro x hx
          split at hstep1
          · obtain ⟨hsub, _⟩ := pyRemove_spec availM sel availM1 hstep1
            split at hx
            · exact hsub (List.mem_dedup.mp (List.mem_of_mem_filter hx))
            · exact hsub hx
          · rw [Option.some_inj] at hstep1
            subst hstep1
            split at hx
            · exact List.mem_dedup.mp (List.mem_of_mem_filter hx)
            · exact hx
        · -- Nodup preserved
          intro hnd
          split at hstep1
          · obtain ⟨_, hnd'⟩ := pyRemove_spec availM sel availM1 hstep1
            split
            · exact ((List.nodup_dedup availM1).filter _)
            · exact (hnd' hnd).2
          · rw [Option.some_inj] at hstep1
            subst hstep1
            split
            · exact ((List.nodup_dedup availM).filter _)
            · exact hnd
        · -- same-item cap removal
          intro hnd hcap
          rw [hself, Option.getD_some] at hcap
          rw [hself, Option.getD_some, if_pos hcap] at hstep1
          obtain ⟨_, hnd'⟩ := pyRemove_spec availM sel availM1 hstep1
          have hnot := (hnd' hnd).1
          split
          · intro hc
            exact hnot (List.mem_dedup.mp (List.mem_of_mem_filter hc))
          · exact hnot
        · -- distinct cap: availability restricted to already-used keys
          intro hlen r hr
          rw [if_pos hlen] at hr
          have := List.mem_filter.mp hr
          simpa using this.2
        · -- retention when the same-item cap is not yet hit
          intro hmem hlt
          rw [hself, Option.getD_some] at hlt
          rw [hself, Option.getD_some, if_neg (by omega)] at hstep1
          rw [Option.some_inj] at hstep1
          subst hstep1
          split
          · refine List.mem_filter.mpr ⟨List.mem_dedup.mpr hmem, ?_⟩
            have : sel ∈ pyKeys (pySet ((pyGet? st.selCount m).getD []) sel
                (((pyGet? ((pyGet? st.selCount m).getD []) sel).getD 0) + 1)) := by
              rw [← pyGet?_isSome_iff_mem, hself]
              rfl
            simpa using this
          · exact hmem

theorem sr52Step_spec (sel : String) (recs onlyOne : List String) :
    (∀ x ∈ (sr52Step sel recs onlyOne).1, x ∈ recs) ∧
    (recs.Nodup → (sr52Step sel recs onlyOne).1.Nodup) ∧
    (∀ x ∈ onlyOne, x ∈ (sr52Step sel recs onlyOne).2) ∧
    (∀ x ∈ (sr52Step sel recs onlyOne).2, x ∈ onlyOne ∨ x = "SRc52") ∧
    (sel = "SRc52" → "SRc52" ∈ recs → "SRc52" ∈ (sr52Step sel recs onlyOne).2) ∧
    (sel ≠ "SRc52" → (sr52Step sel recs onlyOne).2 = onlyOne) := by
  unfold sr52Step
  by_cases h : sel = "SRc52" ∧ sel ∈ recs ∧ "SRc52" ∉ onlyOne
  · rw [if_pos h]
    refine ⟨fun x hx => List.mem_of_mem_erase hx, fun hnd => hnd.erase _,
      fun x hx => List.mem_append_left _ hx, ?_, fun _ _ => by simp, ?_⟩
    · intro x hx
      rcases List.mem_append.mp hx with hh | hh
      · exact Or.inl hh
      · exact Or.inr (by simpa using hh)
    · intro hne
      exact absurd h.1 hne
  · rw [if_neg h]
    refine ⟨fun x hx => hx, fun hnd => hnd, fun x hx => hx, fun x hx => Or.inl hx, ?_,
      fun _ => rfl⟩
    intro h52 hmem
    push_neg at h
    by_contra hno
    exact hno (h h52 (h52 ▸ hmem))

theorem exclusivityStep_spec (sel : String) (recs1 : List String) :
    (∀ x ∈ exclusivityStep sel recs1, x ∈ recs1) ∧
    (recs1.Nodup → (exclusivityStep sel recs1).Nodup) ∧
    (∀ x ∈ recs1, x ≠ "SRc100" → x ≠ "SRc101" → x ∈ exclusivityStep sel recs1) := by
  unfold exclusivityStep
  by_cases hA : (sel = "SRc100" ∨ sel = "SRc101") ∧ sel ∈ recs1
  · rw [if_pos hA]
    simp only
    by_cases hB : (if sel = "SRc100" then "SRc101" else "SRc100") ∈ recs1
    · rw [if_pos hB]
      refine ⟨fun x hx => List.mem_of_mem_erase hx, fun hnd => hnd.erase _, ?_⟩
      intro x hx h100 h101
      refine (List.mem_erase_of_ne ?_).mpr hx
      split
      · exact h101
      · exact h100
    · rw [if_neg hB]
      exact ⟨fun x hx => hx, fun hnd => hnd, fun x hx _ _ => hx⟩
  · rw [if_neg hA]
    exact ⟨fun x hx => hx, fun hnd => hnd, fun x hx _ _ => hx⟩

theorem updateAvailOneMission_spec (sel : String) (recs onlyOne : List String) :
    (∀ x ∈ (updateAvailOneMission sel recs onlyOne).1, x ∈ recs) ∧
    (recs.Nodup → (updateAvailOneMission sel recs onlyOne).1.Nodup) ∧
    (∀ x ∈ onlyOne, x ∈ (updateAvailOneMission sel recs onlyOne).2) ∧
    (∀ x ∈ (updateAvailOneMission sel recs onlyOne).2, x ∈ onlyOne ∨ x = "SRc52") ∧
    (sel = "SRc52" → "SRc52" ∈ recs → "SRc52" ∈ (updateAvailOneMission sel recs onlyOne).2) ∧
    (sel ≠ "SRc52" → (updateAvailOneMission sel recs onlyOne).2 = onlyOne) := by
  obtain ⟨s1, s2, s3, s4, s5, s6⟩ := sr52Step_spec sel recs onlyOne
  obtain ⟨e1, e2, _⟩ := exclusivityStep_spec sel (sr52Step sel recs onlyOne).1
  exact ⟨fun x hx => s1 x (e1 x hx), fun hnd => e2 (s2 hnd), s3, s4, s5, s6⟩

theorem updateAvailRecommendations_spec (sel : String) :
    ∀ (avail : List (String × List String)) (onlyOne : List String),
    pyKeys (updateAvailRecommendations avail onlyOne sel).1 = pyKeys avail ∧
    (∀ k l', pyGet? (updateAvailRecommendations avail onlyOne sel).1 k = some l' →
        ∃ l, pyGet? avail k = some l ∧ (∀ x ∈ l', x ∈ l) ∧ (l.Nodup → l'.Nodup)) ∧
    (∀ x ∈ onlyOne, x ∈ (updateAvailRecommendations avail onlyOne sel).2) ∧
    (∀ x ∈ (updateAvailRecommendations avail onlyOne sel).2,
        x ∈ onlyOne ∨ x = "SRc52") ∧
    (sel ≠ "SRc52" → (updateAvailRecommendations avail onlyOne sel).2 = onlyOne) ∧
    (sel = "SRc52" → ∀ k l, pyGet? avail k = some l → "SRc52" ∈ l →
        "SRc52" ∈ (updateAvailRecommendations avail onlyOne sel).2) := by
  intro avail
  induction avail with
  | nil =>
      intro onlyOne
      refine ⟨rfl, ?_, fun x hx => hx, fun x hx => Or.inl hx, fun _ => rfl, ?_⟩
      · intro k l' h
        exact absurd h (by simp [updateAvailRecommendations, pyGet?])
      · intro _ k l h
        exact absurd h (by simp [pyGet?])
  | cons e es ih =>
      intro onlyOne
      obtain ⟨o1, o2, o3, o4, o5, o6⟩ :=
        updateAvailOneMission_spec sel e.2 onlyOne
      obtain ⟨i1, i2, i3, i4, i5, i6⟩ :=
        ih (updateAvailOneMission sel e.2 onlyOne).2
      refine ⟨?_, ?_, ?_, ?_, ?_, ?_⟩
      · show pyKeys ((e.1, _) :: _) = pyKeys (e :: es)
        rw [pyKeys_cons]
        cases e
        rw [pyKeys_cons, i1]
      · intro k l' h
        by_cases hk : e.1 = k
        · subst hk
          have : l' = (updateAvailOneMission sel e.2 onlyOne).1 := by
            simpa [updateAvailRecommendations, pyGet?] using h.symm
          subst this
          exact ⟨e.2, by cases e; simp [pyGet?], o1, o2⟩
        · have h' : pyGet? (updateAvailRecommendations es
              (updateAvailOneMission sel e.2 onlyOne).2 sel).1 k = some l' := by
            simpa [updateAvailRecommendations, pyGet?, hk] using h
          obtain ⟨l, hl, hsub, hnd⟩ := i2 k l' h'
          refine ⟨l, ?_, hsub, hnd⟩
          cases e
          simpa [pyGet?, hk] using hl
      · intro x hx
        exact i3 x (o3 x hx)
      · intro x hx
        rcases i4 x hx with hh | hh
        · exact o4 x hh
        · exact Or.inr hh
      · intro hne
        show (updateAvailRecommendations es _ sel).2 = onlyOne
        rw [i5 hne, o6 hne]
      · intro h52 k l hget hmem
        by_cases hk : e.1 = k
        · subst hk
          have : l = e.2 := by
            cases e
            simpa [pyGet?] using hget.symm
          subst this
          exact i3 "SRc52" (o5 h52 hmem)
        · have hget' : pyGet? es k = some l := by
            cases e
            simpa [pyGet?, hk] using hget
          exact i6 h52 k l hget' hmem

theorem length_pyKeys {β : Type} (d : List (String × β)) : (pyKeys d).length = d.length := by
  simp [pyKeys]

theorem length_pySet_of_mem {β : Type} (d : List (String × β)) (k : String) (v : β)
    (h : k ∈ pyKeys d) : (pySet d k v).length = d.length := by
  rw [← length_pyKeys, pyKeys_pySet_of_mem d k v h, length_pyKeys]

theorem length_pySet_of_not_mem {β : Type} (d : List (String × β)) (k : String) (v : β)
    (h : k ∉ pyKeys d) : (pySet d k v).length = d.length + 1 := by
  rw [← length_pyKeys, pyKeys_pySet_of_not_mem d k v h]
  simp [length_pyKeys]

theorem count_append_pair (L : List (String × String)) (sel m r k : String) :
    (L ++ [(sel, m)]).count (r, k)
      = L.count (r, k) + (if (r, k) = (sel, m) then 1 else 0) := by
  rw [List.count_append]
  by_cases h : (r, k) = (sel, m)
  · rw [if_pos h, h]
    simp
  · rw [if_neg h]
    simp [List.count_singleton', h]

theorem countP_append_sr52 (L : List (String × String)) (sel m : String) :
    (L ++ [(sel, m)]).countP (fun pr => pr.1 = "SRc52")
      = L.countP (fun pr => pr.1 = "SRc52") + (if sel = "SRc52" then 1 else 0) := by
  rw [List.countP_append]
  by_cases h : sel = "SRc52" <;> simp [List.countP_cons, h]

theorem count_le_countP_sr52 (L : List (String × String)) (m : String) :
    L.count ("SRc52", m) ≤ L.countP (fun pr => pr.1 = "SRc52") := by
  rw [List.count]
  apply List.countP_mono_left
  intro x _ hx
  have hxe : x = ("SRc52", m) := by simpa using hx
  rw [hxe]
  simp

theorem acceptedStep_inv (onlyOne0 : List String) (recs : String → List String)
    (sel m : String) (st st2 st3 : SlateState)
    (hinv : SlateInv onlyOne0 st)
    (hsel_mem0 : sel ∈ (pyGet? st.avail m).getD [])
    (hsel52 : sel = "SRc52" → "SRc52" ∉ st.onlyOne)
    (hufo : updateFrequencyOffsets recs sel m
        { st with selected := st.selected ++ [(sel, m)] } = some st2)
    (hst3 : st3 = { st2 with
        avail := (updateAvailRecommendations st2.avail st2.onlyOne sel).1,
        onlyOne := (updateAvailRecommendations st2.avail st2.onlyOne sel).2 }) :
    SlateInv onlyOne0 st3 ∧
    st3.selected = st.selected ++ [(sel, m)] ∧
    (∀ x ∈ st.onlyOne, x ∈ st3.onlyOne) := by
  obtain ⟨cnts, availM, availM2, hcnts, hsel2, honly2, hselCount2, havailM, havail2,
    hsub, hnd2, hcap_rm, hdist_sub, hretain⟩ :=
    updateFrequencyOffsets_spec recs sel m _ st2 hufo
  have hcnts' : cnts = pySet (missionCount st m) sel
      ((pyGet? (missionCount st m) sel).getD 0 + 1) := hcnts
  have hsel2' : st2.selected = st.selected ++ [(sel, m)] := hsel2
  have honly2' : st2.onlyOne = st.onlyOne := honly2
  have hselCount2' : st2.selCount = pySet st.selCount m cnts := hselCount2
  have havailM' : pyGet? st.avail m = some availM := havailM
  have havail2' : st2.avail = pySet st.avail m availM2 := havail2
  have hav3 : st3.avail = (updateAvailRecommendations st2.avail st2.onlyOne sel).1 := by
    rw [hst3]
  have ho3 : st3.onlyOne = (updateAvailRecommendations st2.avail st2.onlyOne sel).2 := by
    rw [hst3]
  have hsc3 : st3.selCount = st2.selCount := by rw [hst3]
  have hsel3 : st3.selected = st2.selected := by rw [hst3]
  -- old per-mission count values
  have hc0 : ∀ r, (pyGet? (missionCount st m) r).getD 0 = st.selected.count (r, m) := by
    intro r
    rw [hinv.count_eq m r]
    split
    · rename_i h0
      simp [h0]
    · simp
  have havailM_eq : (pyGet? st.avail m).getD [] = availM := by rw [havailM']; rfl
  have hsel_mem : sel ∈ availM := havailM_eq ▸ hsel_mem0
  have havailM_nodup : availM.Nodup := havailM_eq ▸ hinv.avail_nodup m
  have hc_lt : st.selected.count (sel, m) < MAX_SAME_REC_SENT_PER_MISSION := by
    by_contra hge
    push_neg at hge
    exact (havailM_eq ▸ hinv.same_cap m sel hge) hsel_mem
  have hcnts_sel : pyGet? cnts sel = some (st.selected.count (sel, m) + 1) := by
    rw [hcnts', pyGet?_pySet_self, hc0]
  have hcnts_ne : ∀ r, r ≠ sel → pyGet? cnts r = pyGet? (missionCount st m) r := by
    intro r hr
    rw [hcnts']
    exact pyGet?_pySet_ne _ sel r _ (fun h => hr h.symm)
  -- new per-mission dicts
  have hmc3_m : missionCount st3 m = cnts := by
    simp only [missionCount]
    rw [hsc3, hselCount2', pyGet?_pySet_self]
    rfl
  have hmc3_ne : ∀ k, k ≠ m → missionCount st3 k = missionCount st k := by
    intro k hk
    simp only [missionCount]
    rw [hsc3, hselCount2', pyGet?_pySet_ne _ m k _ (fun h => hk h.symm)]
  -- new counts and countP
  have hcount3 : ∀ r k, st3.selected.count (r, k)
      = st.selected.count (r, k) + (if (r, k) = (sel, m) then 1 else 0) := by
    intro r k
    rw [hsel3, hsel2', count_append_pair]
  have hcountP3 : st3.selected.countP (fun pr => pr.1 = "SRc52")
      = st.selected.countP (fun pr => pr.1 = "SRc52")
        + (if sel = "SRc52" then 1 else 0) := by
    rw [hsel3, hsel2', countP_append_sr52]
  -- membership shape of the final availability lists
  obtain ⟨u1, u2, u3, u4, u5, u6⟩ :=
    updateAvailRecommendations_spec sel st2.avail st2.onlyOne
  have hmem_avail3 : ∀ k x, x ∈ (pyGet? st3.avail k).getD [] →
      (k = m → x ∈ availM2) ∧ (k ≠ m → x ∈ (pyGet? st.avail k).getD []) := by
    intro k x hx
    rw [hav3] at hx
    cases hg : pyGet? (updateAvailRecommendations st2.avail st2.onlyOne sel).1 k with
    | none => rw [hg] at hx; exact absurd hx (by simp)
    | some l' =>
        rw [hg] at hx
        obtain ⟨l, hl, hsub', _⟩ := u2 k l' hg
        rw [havail2'] at hl
        constructor
        · intro hkm
          subst hkm
          rw [pyGet?_pySet_self, Option.some_inj] at hl
          subst hl
          exact hsub' x hx
        · intro hkm
          rw [pyGet?_pySet_ne _ m k _ (fun h => hkm h.symm)] at hl
          rw [hl]
          exact hsub' x hx
  have hnodup_avail3 : ∀ k, ((pyGet? st3.avail k).getD []).Nodup := by
    intro k
    rw [hav3]
    cases hg : pyGet? (updateAvailRecommendations st2.avail st2.onlyOne sel).1 k with
    | none => simp
    | some l' =>
        obtain ⟨l, hl, _, hnd'⟩ := u2 k l' hg
        rw [havail2'] at hl
        simp only [Option.getD_some]
        by_cases hkm : k = m
        · subst hkm
          rw [pyGet?_pySet_self, Option.some_inj] at hl
          subst hl
          exact hnd' (hnd2 havailM_nodup)
        · rw [pyGet?_pySet_ne _ m k _ (fun h => hkm h.symm)] at hl
          have hknd := hinv.avail_nodup k
          rw [hl] at hknd
          exact hnd' (by simpa using hknd)
  refine ⟨⟨?_, ?_, ?_, ?_, ?_, ?_, ?_, ?_, ?_, ?_⟩, by rw [hsel3, hsel2'], ?_⟩
  · -- count_eq
    intro k r
    rw [hcount3]
    by_cases hkm : k = m
    · by_cases hrs : r = sel
      · have hone : (if ((r, k) : String × String) = (sel, m) then (1 : ℕ) else 0) = 1 :=
          if_pos (by rw [hrs, hkm])
        simp only [hone]
        rw [hkm, hmc3_m, hrs, hcnts_sel, if_neg (by omega)]
      · have hzero : (if ((r, k) : String × String) = (sel, m) then (1 : ℕ) else 0) = 0 :=
          if_neg (by rw [Prod.mk.injEq]; exact fun h => hrs h.1)
        simp only [hzero, Nat.add_zero]
        rw [hkm, hmc3_m, hcnts_ne r hrs]
        exact hinv.count_eq m r
    · have hzero : (if ((r, k) : String × String) = (sel, m) then (1 : ℕ) else 0) = 0 :=
        if_neg (by rw [Prod.mk.injEq]; exact fun h => hkm h.2)
      simp only [hzero, Nat.add_zero]
      rw [hmc3_ne k hkm]
      exact hinv.count_eq k r
  · -- keys_nodup
    intro k
    by_cases hkm : k = m
    · rw [hkm, hmc3_m, hcnts']
      exact pyKeys_pySet_nodup _ _ _ (hinv.keys_nodup m)
    · rw [hmc3_ne k hkm]
      exact hinv.keys_nodup k
  · -- same_cap
    intro k r hge hmem
    rw [hcount3] at hge
    by_cases hrk : (r, k) = (sel, m)
    · have hone : (if ((r, k) : String × String) = (sel, m) then (1 : ℕ) else 0) = 1 :=
        if_pos hrk
      rw [hone] at hge
      rw [Prod.mk.injEq] at hrk
      obtain ⟨hr, hk⟩ := hrk
      rw [hr, hk] at hge hmem
      have hrm : sel ∉ availM2 := by
        apply hcap_rm havailM_nodup
        rw [hcnts_sel]
        simpa using hge
      exact hrm ((hmem_avail3 m sel hmem).1 rfl)
    · have hzero : (if ((r, k) : String × String) = (sel, m) then (1 : ℕ) else 0) = 0 :=
        if_neg hrk
      rw [hzero, Nat.add_zero] at hge
      have hold := hinv.same_cap k r hge
      by_cases hkm : k = m
      · rw [hkm] at hmem hold
        rw [havailM_eq] at hold
        exact hold (hsub r ((hmem_avail3 m r hmem).1 rfl))
      · exact hold ((hmem_avail3 k r hmem).2 hkm)
  · -- count_le
    intro k r
    rw [hcount3]
    by_cases hrk : (r, k) = (sel, m)
    · have hone : (if ((r, k) : String × String) = (sel, m) then (1 : ℕ) else 0) = 1 :=
        if_pos hrk
      rw [hone]
      rw [Prod.mk.injEq] at hrk
      obtain ⟨hr, hk⟩ := hrk
      rw [hr, hk]
      omega
    · have hzero : (if ((r, k) : String × String) = (sel, m) then (1 : ℕ) else 0) = 0 :=
        if_neg hrk
      rw [hzero, Nat.add_zero]
      exact hinv.count_le k r
  · -- distinct_le
    intro k
    by_cases hkm : k = m
    · rw [hkm, hmc3_m, hcnts']
      by_cases hmem : sel ∈ pyKeys (missionCount st m)
      · rw [length_pySet_of_mem _ _ _ hmem]
        exact hinv.distinct_le m
      · rw [length_pySet_of_not_mem _ _ _ hmem]
        have hlt : (missionCount st m).length < MAX_DISTINCT_REC_PER_MISSION := by
          by_contra hge
          push_neg at hge
          exact hmem (hinv.distinct_cap m hge sel hsel_mem0)
        omega
    · rw [hmc3_ne k hkm]
      exact hinv.distinct_le k
  · -- distinct_cap
    intro k hlen r hr
    by_cases hkm : k = m
    · rw [hkm] at hlen hr ⊢
      rw [hmc3_m] at hlen ⊢
      exact hdist_sub hlen r ((hmem_avail3 m r hr).1 rfl)
    · rw [hmc3_ne k hkm] at hlen ⊢
      exact hinv.distinct_cap k hlen r ((hmem_avail3 k r hr).2 hkm)
  · -- avail_nodup
    exact hnodup_avail3
  · -- sr52_le
    rw [hcountP3]
    by_cases h52 : sel = "SRc52"
    · rw [if_pos h52]
      have hno : "SRc52" ∉ st.onlyOne := hsel52 h52
      have hzero : st.selected.countP (fun pr => pr.1 = "SRc52") = 0 := by
        by_contra hne
        exact hno (hinv.sr52_mem (Nat.one_le_iff_ne_zero.mpr hne))
      have hnot0 : "SRc52" ∉ onlyOne0 := fun hmem => hno (hinv.only_mono _ hmem)
      rw [hzero, if_neg hnot0]
    · rw [if_neg h52, Nat.add_zero]
      exact hinv.sr52_le
  · -- sr52_mem
    rw [hcountP3, ho3]
    intro hge
    by_cases h52 : sel = "SRc52"
    · subst h52
      have hno : "SRc52" ∉ st.onlyOne := hsel52 rfl
      have hzeroP : st.selected.countP (fun pr => pr.1 = "SRc52") = 0 := by
        by_contra hne
        exact hno (hinv.sr52_mem (Nat.one_le_iff_ne_zero.mpr hne))
      have hczero : st.selected.count ("SRc52", m) = 0 :=
        Nat.le_zero.mp (hzeroP ▸ count_le_countP_sr52 st.selected m)
      have hin2 : "SRc52" ∈ availM2 := by
        apply hretain hsel_mem
        rw [hcnts_sel, hczero]
        simp [MAX_SAME_REC_SENT_PER_MISSION]
      exact u6 rfl m availM2 (by rw [havail2']; exact pyGet?_pySet_self _ _ _) hin2
    · rw [if_neg h52, Nat.add_zero] at hge
      have hm := hinv.sr52_mem hge
      exact u3 _ (by rw [honly2']; exact hm)
  · -- only_mono
    intro x hx
    rw [ho3]
    exact u3 x (by rw [honly2']; exact hinv.only_mono x hx)
  · -- prior onlyOne survives
    intro x hx
    rw [ho3]
    exact u3 x (by rw [honly2']; exact hx)

theorem fillSlots_inv (onlyOne0 : List String) (recs : String → List String)
    (oracle : ℕ → ℕ × ℚ) (m : String) :
    ∀ (fuel count step : ℕ) (st : SlateState) (res : ℕ × SlateState),
      fillSlots recs oracle m fuel count step st = some res →
      SlateInv onlyOne0 st →
      SlateInv onlyOne0 res.2 ∧
      (∃ Δ, res.2.selected = st.selected ++ Δ ∧ (∀ pr ∈ Δ, pr.2 = m) ∧
        Δ.length ≤ fuel) ∧
      (∀ x ∈ st.onlyOne, x ∈ res.2.onlyOne) := by
  intro fuel
  induction fuel with
  | zero =>
      intro count step st res h hinv
      rw [fillSlots, Option.some_inj] at h
      subst h
      exact ⟨hinv, ⟨[], by simp, by simp, by simp⟩, fun x hx => hx⟩
  | succ fuel ih =>
      intro count step st res h hinv
      rw [fillSlots] at h
      split at h
      · rw [Option.some_inj] at h
        subst h
        exact ⟨hinv, ⟨[], by simp, by simp, by simp⟩, fun x hx => hx⟩
      · split at h
        case h_1 => exact absurd h (by simp)
        case h_2 =>
            -- rejected slot: recurse on the same state
            obtain ⟨hinv', ⟨Δ, hΔ1, hΔ2, hΔ3⟩, hmono⟩ :=
              ih count (step + 1) st res h hinv
            exact ⟨hinv', ⟨Δ, hΔ1, hΔ2, by omega⟩, hmono⟩
        case h_3 sel hsel =>
            simp only [] at h
            split at h
            case h_1 => exact absurd h (by simp)
            case h_2 st2 hufo =>
                obtain ⟨hmem, h52⟩ := selectRecommendation_some_spec _ _ _ _ _ _ hsel
                obtain ⟨hinv3, hsel3, honly3⟩ :=
                  acceptedStep_inv onlyOne0 recs sel m st st2 _ hinv hmem h52 hufo rfl
                split at h
                · -- availability exhausted: stop after this acceptance
                  rw [Option.some_inj] at h
                  subst h
                  refine ⟨hinv3, ⟨[(sel, m)], hsel3, ?_, by simp⟩, honly3⟩
                  intro pr hpr
                  simp at hpr
                  rw [hpr]
                · -- continue filling
                  obtain ⟨hinv', ⟨Δ, hΔ1, hΔ2, hΔ3⟩, hmono⟩ :=
                    ih (count + 1) (step + 1) _ res h hinv3
                  refine ⟨hinv', ⟨(sel, m) :: Δ, ?_, ?_, by simpa using hΔ3⟩,
                    fun x hx => hmono x (honly3 x hx)⟩
                  · rw [hΔ1, hsel3, List.append_assoc]
                    rfl
                  · intro pr hpr
                    rcases List.mem_cons.mp hpr with hpr | hpr
                    · rw [hpr]
                    · exact hΔ2 pr hpr

theorem pyGet?_map_avail (l : List String) (f : String → List String) (k : String)
    (v : List String) (h : pyGet? (l.map fun m => (m, f m)) k = some v) : v = f k := by
  induction l with
  | nil => simp [pyGet?] at h
  | cons x xs ih =>
      rw [List.map_cons] at h
      rw [pyGet?] at h
      by_cases hx : x = k
      · rw [if_pos hx] at h
        rw [Option.some_inj] at h
        rw [← h, hx]
      · rw [if_neg hx] at h
        exact ih h

theorem initState_inv (onlyOne0 : List String) (missions : List String)
    (avail0 : String → List String) (havail : ∀ m, (avail0 m).Nodup) :
    SlateInv onlyOne0
      { avail := missions.map fun m => (m, avail0 m)
        selected := [], selCount := [], totalFreq := 0, intvFreq := [], recFreq := []
        onlyOne := onlyOne0 } := by
  constructor
  · intro m r
    simp [missionCount, pyGet?]
  · intro m
    simp [missionCount, pyGet?, pyKeys]
  · intro m r h
    simp [MAX_SAME_REC_SENT_PER_MISSION] at h
  · intro m r
    simp [MAX_SAME_REC_SENT_PER_MISSION]
  · intro m
    simp [missionCount, pyGet?, MAX_DISTINCT_REC_PER_MISSION]
  · intro m h
    simp [missionCount, pyGet?, MAX_DISTINCT_REC_PER_MISSION] at h
  · intro m
    cases hg : pyGet? (missions.map fun m => (m, avail0 m)) m with
    | none => simp [hg]
    | some v =>
        rw [pyGet?_map_avail missions avail0 m v hg]
        simpa using havail m
  · simp
  · intro h
    simp at h
  · intro x hx
    exact hx

theorem foldl_fillSlots_none (recs : String → List String) (oracle : ℕ → ℕ × ℚ)
    (num_slots : ℕ) (missions : List String) :
    missions.foldl (fun acc m =>
      match acc with
      | none => none
      | some pr => fillSlots recs oracle m num_slots 1 pr.1 pr.2) none = none := by
  induction missions with
  | nil => rfl
  | cons x xs ih => simpa using ih

theorem missionsFold_inv (onlyOne0 : List String) (recs : String → List String)
    (oracle : ℕ → ℕ × ℚ) (num_slots : ℕ) :
    ∀ (missions : List String) (acc0 res : ℕ × SlateState),
      missions.Nodup →
      missions.foldl (fun acc m =>
        match acc with
        | none => none
        | some pr => fillSlots recs oracle m num_slots 1 pr.1 pr.2) (some acc0)
        = some res →
      SlateInv onlyOne0 acc0.2 →
      SlateInv onlyOne0 res.2 ∧
      (∃ Δ, res.2.selected = acc0.2.selected ++ Δ ∧
        ∀ m, Δ.countP (fun pr => pr.2 = m)
          ≤ if m ∈ missions then num_slots else 0) ∧
      (∀ x ∈ acc0.2.onlyOne, x ∈ res.2.onlyOne) := by
  intro missions
  induction missions with
  | nil =>
      intro acc0 res _ h hinv
      rw [List.foldl_nil, Option.some_inj] at h
      subst h
      exact ⟨hinv, ⟨[], by simp, by simp⟩, fun x hx => hx⟩
  | cons m ms ih =>
      intro acc0 res hnd h hinv
      rw [List.foldl_cons] at h
      have h' : ms.foldl (fun acc m =>
          match acc with
          | none => none
          | some pr => fillSlots recs oracle m num_slots 1 pr.1 pr.2)
          (fillSlots recs oracle m num_slots 1 acc0.1 acc0.2) = some res := h
      cases hmid : fillSlots recs oracle m num_slots 1 acc0.1 acc0.2 with
      | none =>
          rw [hmid] at h'
          exact absurd h' (by rw [foldl_fillSlots_none]; simp)
      | some mid =>
          rw [hmid] at h'
          obtain ⟨hinv1, ⟨Δ₁, hΔ₁, hΔ₁m, hΔ₁len⟩, hmono1⟩ :=
            fillSlots_inv onlyOne0 recs oracle m num_slots 1 acc0.1 acc0.2 mid hmid hinv
          obtain ⟨hinv2, ⟨Δ₂, hΔ₂, hΔ₂cnt⟩, hmono2⟩ :=
            ih mid res (List.Nodup.of_cons hnd) h' hinv1
          have hmnotms : m ∉ ms := (List.nodup_cons.mp hnd).1
          refine ⟨hinv2, ⟨Δ₁ ++ Δ₂, ?_, ?_⟩, fun x hx => hmono2 x (hmono1 x hx)⟩
          · rw [hΔ₂, hΔ₁, List.append_assoc]
          · intro k
            rw [List.countP_append]
            by_cases hk : k = m
            · have h1 : Δ₁.countP (fun pr => pr.2 = k) ≤ num_slots :=
                le_trans (List.countP_le_length _) hΔ₁len
              have h2 : Δ₂.countP (fun pr => pr.2 = k) = 0 := by
                have := hΔ₂cnt k
                rw [if_neg (by rw [hk]; exact hmnotms)] at this
                omega
              rw [if_pos (by rw [hk]; exact List.mem_cons_self m ms)]
              omega
            · have h1 : Δ₁.countP (fun pr => pr.2 = k) = 0 := by
                apply List.countP_eq_zero.mpr
                intro pr hpr
                simp only [hΔ₁m pr hpr, decide_eq_true_eq]
                exact fun hc => hk hc.symm
              have h2 := hΔ₂cnt k
              by_cases hkms : k ∈ ms
              · rw [if_pos hkms] at h2
                rw [if_pos (List.mem_cons_of_mem m hkms)]
                omega
              · rw [if_neg hkms] at h2
                rw [if_neg (by simp [hk, hkms])]
                omega

theorem foldl_firstOcc_nodup (l : List String) :
    ∀ acc : List String, acc.Nodup →
      (l.foldl (fun acc x => if x ∈ acc then acc else acc ++ [x]) acc).Nodup := by
  induction l with
  | nil => intro acc h; exact h
  | cons x xs ih =>
      intro acc h
      rw [List.foldl_cons]
      by_cases hx : x ∈ acc
      · rw [if_pos hx]
        exact ih acc h
      · rw [if_neg hx]
        refine ih _ ?_
        rw [List.nodup_append]
        refine ⟨h, List.nodup_singleton x, ?_⟩
        intro a ha hax
        rw [List.mem_singleton] at hax
        exact hx (hax ▸ ha)

theorem firstOccurrences_nodup (l : List String) : (firstOccurrences l).Nodup :=
  foldl_firstOcc_nodup l [] List.nodup_nil

theorem getRecommendationsToSend_spec (recs : String → List String)
    (oracle : ℕ → ℕ × ℚ) (user_missions : List String)
    (avail0 : String → List String) (onlyOne0 : List String) (st : SlateState)
    (havail : ∀ m, (avail0 m).Nodup)
    (h : getRecommendationsToSend recs oracle user_missions avail0 onlyOne0 = some st) :
    SlateInv onlyOne0 st ∧
    ∀ m, st.selected.countP (fun pr => pr.2 = m)
      ≤ MAX_NUM_REC_PER_MISSION / user_missions.length := by
  unfold getRecommendationsToSend at h
  simp only [] at h
  rw [Option.map_eq_some'] at h
  obtain ⟨pr, hpr, hsnd⟩ := h
  obtain ⟨hinv, ⟨Δ, hΔ, hΔcnt⟩, _⟩ :=
    missionsFold_inv onlyOne0 recs oracle (MAX_NUM_REC_PER_MISSION / user_missions.length)
      (firstOccurrences user_missions) (0, _) pr
      (firstOccurrences_nodup user_missions) hpr
      (initState_inv onlyOne0 (firstOccurrences user_missions) avail0 havail)
  rw [hsnd] at hinv hΔ
  refine ⟨hinv, fun m => ?_⟩
  rw [hΔ]
  simp only [List.nil_append]
  have := hΔcnt m
  by_cases hm : m ∈ firstOccurrences user_missions
  · rw [if_pos hm] at this
    exact this
  · rw [if_neg hm] at this
    exact le_trans this (Nat.zero_le _)

theorem runHistory_sr52 :
    ∀ (runs : List RunInput) (onlyOne : List String)
      (slates : List (List (String × String))) (fin : List String),
      (∀ r ∈ runs, ∀ m, (r.avail0 m).Nodup) →
      runHistory runs onlyOne = some (slates, fin) →
      (slates.map fun s => s.countP fun pr => pr.1 = "SRc52").sum
        ≤ if "SRc52" ∈ onlyOne then 0 else 1 := by
  intro runs
  induction runs with
  | nil =>
      intro onlyOne slates fin _ h
      rw [runHistory, Option.some_inj, Prod.mk.injEq] at h
      rw [← h.1]
      simp
  | cons r rest ih =>
      intro onlyOne slates fin hav h
      rw [runHistory] at h
      cases hst : getRecommendationsToSend r.recommendations r.oracle r.user_missions
          r.avail0 onlyOne with
      | none => rw [hst] at h; exact absurd h (by simp)
      | some st =>
          rw [hst] at h
          have h2 : (match runHistory rest st.onlyOne with
              | none => none
              | some pr => some (st.selected :: pr.1, pr.2)) = some (slates, fin) := h
          cases hrest : runHistory rest st.onlyOne with
          | none => rw [hrest] at h2; exact absurd h2 (by simp)
          | some pr2 =>
              rw [hrest, Option.some_inj, Prod.mk.injEq] at h2
              obtain ⟨hinv, _⟩ := getRecommendationsToSend_spec r.recommendations r.oracle
                r.user_missions r.avail0 onlyOne st
                (hav r (List.mem_cons_self r rest)) hst
              have hrest52 := ih st.onlyOne pr2.1 pr2.2
                (fun q hq => hav q (List.mem_cons_of_mem r hq)) (by rw [hrest])
              rw [← h2.1]
              rw [List.map_cons, List.sum_cons]
              have h1 := hinv.sr52_le
              by_cases ho : "SRc52" ∈ onlyOne
              · rw [if_pos ho] at h1 ⊢
                have hso : "SRc52" ∈ st.onlyOne := hinv.only_mono _ ho
                rw [if_pos hso] at hrest52
                omega
              · rw [if_neg ho] at h1 ⊢
                by_cases hc : 1 ≤ st.selected.countP (fun pr => pr.1 = "SRc52")
                · have hso := hinv.sr52_mem hc
                  rw [if_pos hso] at hrest52
                  omega
                · have hif : (if ("SRc52" : String) ∈ st.onlyOne then 0 else 1) ≤ 1 := by
                    by_cases hso : ("SRc52" : String) ∈ st.onlyOne
                    · rw [if_pos hso]
                      omega
                    · rw [if_neg hso]
                  omega

theorem distinct_le_missionCount (st : SlateState) (m : String)
    (hcnt : ∀ r, pyGet? (missionCount st m) r
      = (if st.selected.count (r, m) = 0 then none else some (st.selected.count (r, m))))
    (hnd : (pyKeys (missionCount st m)).Nodup) :
    ((st.selected.filter fun pr => pr.2 = m).map Prod.fst).dedup.length
      ≤ (missionCount st m).length := by
  have hsub : ((st.selected.filter fun pr => pr.2 = m).map Prod.fst).toFinset
      ⊆ (pyKeys (missionCount st m)).toFinset := by
    intro r hr
    rw [List.mem_toFinset] at hr ⊢
    obtain ⟨pr, hpr, hfst⟩ := List.mem_map.mp hr
    have hmem := List.mem_of_mem_filter hpr
    have hsnd : pr.2 = m := by
      have := List.of_mem_filter hpr
      simpa using this
    have hprm : (r, m) ∈ st.selected := by
      rw [← hfst, ← hsnd]
      exact hmem
    have hcpos : st.selected.count (r, m) ≠ 0 := by
      rw [Ne, List.count_eq_zero]
      exact fun hc => hc hprm
    have hsome : (pyGet? (missionCount st m) r).isSome := by
      rw [hcnt r, if_neg hcpos]
      rfl
    exact (pyGet?_isSome_iff_mem _ r).mp hsome
  have h1 : ((st.selected.filter fun pr => pr.2 = m).map Prod.fst).dedup.length
      = ((st.selected.filter fun pr => pr.2 = m).map Prod.fst).toFinset.card :=
    (List.card_toFinset _).symm
  have h2 : (pyKeys (missionCount st m)).toFinset.card
      = (pyKeys (missionCount st m)).length := List.toFinset_card_of_nodup hnd
  rw [h1, ← length_pyKeys, ← h2]
  exact Finset.card_le_card hsub

set_option maxHeartbeats 2000000 in
theorem exC1Final_eval :
    getRecommendationsToSend exCatalog exGreedyOracle ["m1", "m2"] exAvailOne []
      = some exC1Final := by
  have hmix : get_intervention_encoding ["Education"] = some [1, 0, 0, 0, 0, 0, 0, 0] := by
    simp +decide [get_intervention_encoding, INTERVENTION_TYPES]
  have hgate1 : ¬ ((1 : ℚ) ≤ 1/2) := by norm_num
  have hone : (1 : ℚ) ≠ 0 := by norm_num
  have hzero : ¬ ((0 : ℚ) ≠ 0) := by norm_num
  simp [getRecommendationsToSend, fillSlots, selectRecommendation, src52Filter,
    updateFrequencyOffsets, updateAvailRecommendations, updateAvailOneMission,
    sr52Step, exclusivityStep,
    firstOccurrences, pyGet?, pySet, pyRemove, pyKeys, hmix, hgate1,
    hone, hzero, INTERVENTION_TYPES, exCatalog, exGreedyOracle, exAvailOne,
    exC1Final, MIN_NUM_REC_PER_MISSION, MAX_NUM_REC_PER_MISSION,
    MAX_SAME_REC_SENT_PER_MISSION, MAX_DISTINCT_REC_PER_MISSION]
  norm_num

theorem exC1Hist_eval :
    runHistory [exC1Run] [] = some ([exC1Final.selected], exC1Final.onlyOne) := by
  have h : getRecommendationsToSend exC1Run.recommendations exC1Run.oracle
      exC1Run.user_missions exC1Run.avail0 [] = some exC1Final := exC1Final_eval
  show (match getRecommendationsToSend exC1Run.recommendations exC1Run.oracle
      exC1Run.user_missions exC1Run.avail0 [] with
    | none => none
    | some st =>
      match runHistory [] st.onlyOne with
      | none => none
      | some pr => some (st.selected :: pr.1, pr.2))
    = some ([exC1Final.selected], exC1Final.onlyOne)
  rw [h]
  rfl

/-- C1: for every completed slate-generation call on well-formed
availability lists (no duplicate recommendation ids per mission) and every
mission: no id appears more than `MAX_SAME_REC_SENT_PER_MISSION` times in
the slate, at most `MAX_DISTINCT_REC_PER_MISSION` distinct ids appear, and
the mission's total is at most
`MAX_NUM_REC_PER_MISSION / user_missions.length` (the lower bound 0 is a
`ℕ` triviality); and across a user's whole completed history started with
no SRc52 on record, SRc52 is selected at most once. -/
theorem C1_quota_invariants
    (recs : String → List String) (oracle : ℕ → ℕ × ℚ)
    (user_missions : List String) (avail0 : String → List String)
    (onlyOne0 : List String) (st : SlateState)
    (runs : List RunInput) (slates : List (List (String × String)))
    (fin : List String)
    (havail : ∀ m, (avail0 m).Nodup)
    (hcall : getRecommendationsToSend recs oracle user_missions avail0 onlyOne0
      = some st)
    (havailruns : ∀ r ∈ runs, ∀ m, (r.avail0 m).Nodup)
    (hhist : runHistory runs [] = some (slates, fin)) :
    (∀ m r, st.selected.count (r, m) ≤ MAX_SAME_REC_SENT_PER_MISSION) ∧
    (∀ m, ((st.selected.filter fun pr => pr.2 = m).map Prod.fst).dedup.length
        ≤ MAX_DISTINCT_REC_PER_MISSION) ∧
    (∀ m, st.selected.countP (fun pr => pr.2 = m)
        ≤ MAX_NUM_REC_PER_MISSION / user_missions.length) ∧
    (slates.map fun s => s.countP fun pr => pr.1 = "SRc52").sum ≤ 1 := by
  obtain ⟨hinv, htot⟩ := getRecommendationsToSend_spec recs oracle user_missions
    avail0 onlyOne0 st havail hcall
  refine ⟨fun m r => hinv.count_le m r, fun m => ?_, htot, ?_⟩
  · exact le_trans
      (distinct_le_missionCount st m (fun r => hinv.count_eq m r) (hinv.keys_nodup m))
      (hinv.distinct_le m)
  · have h := runHistory_sr52 runs [] slates fin havailruns hhist
    rw [if_neg (List.not_mem_nil _)] at h
    exact h

/-- Witness for C1 at a concrete completed run: one mission, one available
recommendation, greedy oracle — the slate is R1 three times, meeting every
quota, and the one-run history contains no SRc52. -/
theorem C1_quota_invariants_witness :
    exC1Final.selected.count ("R1", "m1") ≤ MAX_SAME_REC_SENT_PER_MISSION ∧
    ((exC1Final.selected.filter fun pr => pr.2 = "m1").map Prod.fst).dedup.length
      ≤ MAX_DISTINCT_REC_PER_MISSION ∧
    exC1Final.selected.countP (fun pr => pr.2 = "m1")
      ≤ MAX_NUM_REC_PER_MISSION / (["m1", "m2"] : List String).length ∧
    (([exC1Final.selected]).map fun s => s.countP fun pr => pr.1 = "SRc52").sum
      ≤ 1 := by
  obtain ⟨h1, h2, h3, h4⟩ :=
    C1_quota_invariants exCatalog exGreedyOracle ["m1", "m2"] exAvailOne [] exC1Final
      [exC1Run] [exC1Final.selected] exC1Final.onlyOne
      (by intro m; simp only [exAvailOne]; split <;> simp)
      exC1Final_eval
      (by
        intro r hr m
        rw [List.mem_singleton] at hr
        subst hr
        show (exAvailOne m).Nodup
        simp only [exAvailOne]
        split <;> simp)
      exC1Hist_eval
  exact ⟨h1 "m1" "R1", h2 "m1", h3 "m1", h4⟩
